import Mathlib

/-!
# Income / Expense calculator (`src/app.js`)

A shallow embedding of the ledger widget and the properties of its entry
collection.

Modelling conventions.

* JavaScript numbers are `JSNum`: `NaN`, the two infinities, or a finite double,
  carried as the rational that is its exact value.  A numeric literal and the
  result of `+` and `-` are rounded to the nearest double, a tie going to the
  even one, with underflow to the subnormal numbers and to zero and overflow to
  an infinity (`JSNum.toDouble`).  The sign of zero is not represented.
* The `localStorage` slot is a `Payload`: what `getItem` returns, classified by
  what `JSON.parse` makes of it.  `JSON.stringify` followed by `JSON.parse` is
  the identity on JSON values (numbers that are not finite are written as
  `null`), so `saveEntries` stores the JSON value of the collection.
* The DOM is not modelled.  An event handler is a function from the application
  state and the values it reads (form fields, `crypto.randomUUID()`,
  `Date.now()`, the answer to `confirm`) to the new state and the text passed to
  `alert`, if any.
-/

namespace IncomeExpense

/-! ## JavaScript numbers -/

/-- A JavaScript number: `NaN`, an infinity, or a finite double, carried as the
rational that is its exact value. -/
inductive JSNum where
  | nan
  | posInf
  | negInf
  | fin (q : ℚ)
deriving DecidableEq

namespace JSNum

instance : Zero JSNum := ⟨fin 0⟩

instance : Inhabited JSNum := ⟨fin 0⟩

/-- The power `2 ^ k` for an integer `k`. -/
def pow2 (k : ℤ) : ℚ :=
  if 0 ≤ k then ((2 ^ k.toNat : ℕ) : ℚ) else 1 / ((2 ^ (-k).toNat : ℕ) : ℚ)

/-- The number of binary digits of `n`, counted with `fuel` steps at most. -/
def bitLength (n : Nat) : Nat → Nat
  | 0 => 0
  | fuel + 1 => if n = 0 then 0 else bitLength (n / 2) fuel + 1

/-- The binary exponent of a positive rational: the `e` with
`2 ^ e ≤ a < 2 ^ (e + 1)`. -/
def ilog2 (a : ℚ) : ℤ :=
  let k : ℤ := (bitLength a.num.natAbs a.num.natAbs : ℤ) - (bitLength a.den a.den : ℤ)
  if pow2 k ≤ a then k else k - 1

/-- The integer nearest to `x`, a tie going to the even one. -/
def roundHalfEven (x : ℚ) : ℤ :=
  if x - (⌊x⌋ : ℚ) < 1 / 2 then ⌊x⌋
  else if 1 / 2 < x - (⌊x⌋ : ℚ) then ⌊x⌋ + 1
  else if ⌊x⌋ % 2 = 0 then ⌊x⌋ else ⌊x⌋ + 1

/-- The distance between the doubles around a positive rational: 53 binary
digits from the exponent down, and `2 ^ -1074` below `2 ^ -1022`. -/
def ulp (a : ℚ) : ℚ := pow2 (max (ilog2 a) (-1022) - 52)

/-- A positive rational rounded to the doubles around it, a tie going to the
even one. -/
def roundPos (a : ℚ) : ℚ := (roundHalfEven (a / ulp a) : ℚ) * ulp a

/-- The double nearest to a rational: the rounding of every arithmetic
operation and of every numeric literal.  A magnitude that rounds to `2 ^ 1024`
or more is an infinity. -/
def toDouble (r : ℚ) : JSNum :=
  if r = 0 then fin 0
  else if r < 0 then
    if pow2 1024 ≤ roundPos (-r) then negInf else fin (-roundPos (-r))
  else
    if pow2 1024 ≤ roundPos r then posInf else fin (roundPos r)

/-- The unary minus. -/
def neg : JSNum → JSNum
  | nan => nan
  | posInf => negInf
  | negInf => posInf
  | fin q => fin (-q)

/-- The binary `+` on numbers: the exact sum, rounded to a double. -/
def add : JSNum → JSNum → JSNum
  | nan, _ => nan
  | _, nan => nan
  | posInf, negInf => nan
  | negInf, posInf => nan
  | posInf, _ => posInf
  | negInf, _ => negInf
  | fin _, posInf => posInf
  | fin _, negInf => negInf
  | fin a, fin b => toDouble (a + b)

/-- The binary `-` on numbers. -/
def sub (a b : JSNum) : JSNum := add a (neg b)

instance : Add JSNum := ⟨add⟩

instance : Sub JSNum := ⟨sub⟩

/-- The comparison `a < b`; every comparison with `NaN` is false. -/
def lt : JSNum → JSNum → Bool
  | nan, _ => false
  | _, nan => false
  | posInf, _ => false
  | _, posInf => true
  | _, negInf => false
  | negInf, _ => true
  | fin a, fin b => decide (a < b)

/-- The comparison `a <= b`; every comparison with `NaN` is false. -/
def le : JSNum → JSNum → Bool
  | nan, _ => false
  | _, nan => false
  | _, posInf => true
  | posInf, _ => false
  | negInf, _ => true
  | _, negInf => false
  | fin a, fin b => decide (a ≤ b)

/-- The global `isNaN` on a number. -/
def isNaN : JSNum → Bool
  | nan => true
  | _ => false

/-- Truthiness of a number: `0` and `NaN` are falsy. -/
def truthy : JSNum → Bool
  | nan => false
  | fin q => decide (q ≠ 0)
  | _ => true

/-- The expression `a || b` on numbers. -/
def or (a b : JSNum) : JSNum := if a.truthy then a else b

/-- The expression `Number(x.toFixed(2))`.  Below `1e21`, `toFixed(2)` writes
the integer `n` for which `n / 100` is nearest to the exact value of the double
(the larger one on a tie) as a decimal with two fractional digits, after the
sign, and `Number` reads that decimal back as a double.  From `1e21` on,
`toFixed` writes the number as `toString` does, and reading that back gives the
number itself. -/
def toFixed2 : JSNum → JSNum
  | fin q =>
    if q < 0 then
      if 10 ^ 21 ≤ -q then fin q
      else neg (toDouble (((⌊(-q) * 100 + 1 / 2⌋ : ℤ) : ℚ) / 100))
    else
      if 10 ^ 21 ≤ q then fin q
      else toDouble (((⌊q * 100 + 1 / 2⌋ : ℤ) : ℚ) / 100)
  | x => x

/-- A literal value rounded to a number: a finite value goes to its double. -/
def ofLiteral : JSNum → JSNum
  | fin q => toDouble q
  | x => x

end JSNum

/-! ## Strings: `trim`, `Number(string)`, `String(number)` -/

/-- White space and line terminators of ECMAScript, the characters `trim`
removes. -/
def isWhiteSpace (c : Char) : Bool :=
  let n := c.toNat
  n == 0x09 || n == 0x0A || n == 0x0B || n == 0x0C || n == 0x0D || n == 0x20 ||
  n == 0xA0 || n == 0x1680 || (0x2000 ≤ n && n ≤ 0x200A) || n == 0x2028 ||
  n == 0x2029 || n == 0x202F || n == 0x205F || n == 0x3000 || n == 0xFEFF

/-- The characters of a text without leading and trailing white space. -/
def trimChars (l : List Char) : List Char :=
  (l.dropWhile isWhiteSpace).rdropWhile isWhiteSpace

/-- The method `String.prototype.trim`. -/
def trim (s : String) : String := ⟨trimChars s.data⟩

/-- The value of a digit in a radix up to 16, when it is one. -/
def digitValue (radix : Nat) (c : Char) : Option Nat :=
  let n := c.toNat
  let v :=
    if 48 ≤ n ∧ n ≤ 57 then some (n - 48)
    else if 97 ≤ n ∧ n ≤ 102 then some (n - 87)
    else if 65 ≤ n ∧ n ≤ 70 then some (n - 55)
    else none
  match v with
  | some d => if d < radix then some d else none
  | none => none

/-- The value of a non-empty run of digits in a radix. -/
def digitsValue (radix : Nat) (ds : List Char) : Option Nat :=
  if ds = [] then none
  else ds.foldl
    (fun acc c =>
      match acc, digitValue radix c with
      | some n, some d => some (radix * n + d)
      | _, _ => none)
    (some 0)

/-- The power `10 ^ k` for an integer `k`. -/
def pow10 (k : ℤ) : ℚ :=
  if 0 ≤ k then ((10 ^ k.toNat : ℕ) : ℚ) else 1 / ((10 ^ (-k).toNat : ℕ) : ℚ)

/-- The number `m * 10 ^ e`, exactly. -/
def scale10 (m : Nat) (e : Int) : ℚ := (m : ℚ) * pow10 e

/-- An optional exponent part `e[+-]digits` that ends the literal. -/
def parseExponent : List Char → Option Int
  | [] => some 0
  | c :: t =>
    if c = 'e' ∨ c = 'E' then
      match t with
      | '+' :: ds => (digitsValue 10 ds).map fun n => (n : Int)
      | '-' :: ds => (digitsValue 10 ds).map fun n => -(n : Int)
      | ds => (digitsValue 10 ds).map fun n => (n : Int)
    else none

/-- The exact value of an unsigned decimal literal: `Infinity`,
`digits[.digits][exponent]` or `.digits[exponent]`. -/
def parseUnsignedDecimal (l : List Char) : Option JSNum :=
  if l = "Infinity".data then some JSNum.posInf
  else
    let ip := l.takeWhile Char.isDigit
    let r1 := l.dropWhile Char.isDigit
    match r1 with
    | '.' :: t =>
      let fp := t.takeWhile Char.isDigit
      let r2 := t.dropWhile Char.isDigit
      match digitsValue 10 (ip ++ fp), parseExponent r2 with
      | some m, some e => some (JSNum.fin (scale10 m (e - (fp.length : Int))))
      | _, _ => none
    | _ =>
      match digitsValue 10 ip, parseExponent r1 with
      | some m, some e => some (JSNum.fin (scale10 m e))
      | _, _ => none

/-- The exact value of a numeric literal without surrounding white space: a
binary, octal or hexadecimal integer, or a decimal with an optional sign. -/
def parseNumericLiteral (l : List Char) : Option JSNum :=
  match l with
  | '0' :: 'x' :: ds | '0' :: 'X' :: ds =>
    (digitsValue 16 ds).map fun n => JSNum.fin (n : ℚ)
  | '0' :: 'o' :: ds | '0' :: 'O' :: ds =>
    (digitsValue 8 ds).map fun n => JSNum.fin (n : ℚ)
  | '0' :: 'b' :: ds | '0' :: 'B' :: ds =>
    (digitsValue 2 ds).map fun n => JSNum.fin (n : ℚ)
  | '+' :: rest => parseUnsignedDecimal rest
  | '-' :: rest => (parseUnsignedDecimal rest).map JSNum.neg
  | _ => parseUnsignedDecimal l

/-- The conversion `Number(s)` of a string: white space around the literal is
ignored, the empty text is `0`, a text that is no numeric literal is `NaN`, and
the value of a literal is rounded to the nearest double, to `0` when it is too
small and to an infinity when it is too large. -/
def stringToNumber (s : String) : JSNum :=
  let t := trimChars s.data
  if t = [] then JSNum.fin 0
  else JSNum.ofLiteral ((parseNumericLiteral t).getD JSNum.nan)

/-- The least `j`, counted from `j` and with `fuel` steps at most, such that
`q * 10 ^ j` is an integer. -/
def decimalPlaces (q : ℚ) : Nat → Nat → Nat
  | 0, j => j
  | fuel + 1, j =>
    if (q * ((10 ^ j : ℕ) : ℚ)).den = 1 then j else decimalPlaces q fuel (j + 1)

/-- The text of a positive decimal, laid out as `Number::toString` does: with
the significant digits `s` (there are `k` of them) and the exponent `n` such
that the value is `0.s * 10 ^ n`, plainly when `-6 < n ≤ 21` and with an
exponent otherwise. -/
def decimalToString (q : ℚ) : String :=
  let j := decimalPlaces q q.den 0
  let digits := Nat.toDigits 10 (⌊q * ((10 ^ j : ℕ) : ℚ)⌋).toNat
  let s := digits.rdropWhile (· == '0')
  let k : Int := s.length
  let n : Int := (digits.length : Int) - (j : Int)
  if k ≤ n ∧ n ≤ 21 then
    String.mk (s ++ List.replicate (n - k).toNat '0')
  else if 0 < n ∧ n ≤ 21 then
    String.mk (s.take n.toNat ++ '.' :: s.drop n.toNat)
  else if -6 < n ∧ n ≤ 0 then
    String.mk ('0' :: '.' :: (List.replicate (-n).toNat '0' ++ s))
  else
    let e := n - 1
    let exp := (if 0 ≤ e then "e+" else "e-") ++ Nat.repr e.natAbs
    match s with
    | [d] => String.mk [d] ++ exp
    | d :: ds => String.mk (d :: '.' :: ds) ++ exp
    | [] => "0"

/-- The decimal exponent of a positive rational: the `n` with
`10 ^ (n - 1) ≤ q < 10 ^ n`. -/
def decimalExponent (q : ℚ) : ℤ :=
  let k : ℤ := ((Nat.toDigits 10 q.num.natAbs).length : ℤ) -
    ((Nat.toDigits 10 q.den).length : ℤ)
  if q < pow10 k then k else k + 1

/-- A decimal of `k` significant digits that reads back as the double `q`, the
nearest one to `q` when there are two, when there is one. -/
def shortestCandidate (q : ℚ) (n : ℤ) (k : Nat) : Option ℚ :=
  let scale := pow10 (n - (k : ℤ))
  let lo := (⌊q / scale⌋ : ℚ) * scale
  let hi := ((⌊q / scale⌋ + 1 : ℤ) : ℚ) * scale
  let okLo := decide (JSNum.toDouble lo = JSNum.fin q)
  let okHi := decide (JSNum.toDouble hi = JSNum.fin q)
  if okLo && okHi then
    if q - lo < hi - q then some lo
    else if hi - q < q - lo then some hi
    else if ⌊q / scale⌋ % 2 = 0 then some lo else some hi
  else if okLo then some lo
  else if okHi then some hi
  else none

/-- The decimal with the fewest significant digits, `k` or more, that reads
back as the double `q`; after `fuel` further lengths, `q` rounded to that many
digits. -/
def shortestDecimal (q : ℚ) (n : ℤ) : Nat → Nat → ℚ
  | 0, k => ((⌊q / pow10 (n - (k : ℤ)) + 1 / 2⌋ : ℤ) : ℚ) * pow10 (n - (k : ℤ))
  | fuel + 1, k =>
    match shortestCandidate q n k with
    | some d => d
    | none => shortestDecimal q n fuel (k + 1)

/-- The text of a positive double, after `Number::toString`: the shortest
decimal that reads back as the double, of 17 significant digits at most. -/
def positiveToString (q : ℚ) : String :=
  decimalToString (shortestDecimal q (decimalExponent q) 16 1)

/-- The conversion `String(x)` of a number. -/
def numberToString : JSNum → String
  | JSNum.nan => "NaN"
  | JSNum.posInf => "Infinity"
  | JSNum.negInf => "-Infinity"
  | JSNum.fin q =>
    if q = 0 then "0"
    else if q < 0 then "-" ++ positiveToString (-q)
    else positiveToString q

/-! ## JSON values and their conversions -/

/-- A JavaScript value as `JSON.parse` builds them, and `undefined`, the value
of a property that is not there. -/
inductive JSVal where
  | undefined
  | null
  | bool (b : Bool)
  | num (x : JSNum)
  | str (s : String)
  | arr (items : List JSVal)
  | obj (props : List (String × JSVal))

mutual
/-- The conversion `String(v)`; `none` is a thrown `TypeError`.  A plain
object is `[object Object]`, unless it has a property `toString` of its own:
that one is not callable, the inherited `valueOf` returns the object, and the
conversion throws.  An array is its elements joined by commas. -/
def toStr : JSVal → Option String
  | JSVal.undefined => some "undefined"
  | JSVal.null => some "null"
  | JSVal.bool true => some "true"
  | JSVal.bool false => some "false"
  | JSVal.num x => some (numberToString x)
  | JSVal.str s => some s
  | JSVal.arr items => joinItems items
  | JSVal.obj props =>
    if props.any (fun kv => kv.1 == "toString") then none else some "[object Object]"
/-- The method `Array.prototype.join` with the separator `,`: `null` and
`undefined` elements are written as the empty text. -/
def joinItems : List JSVal → Option String
  | [] => some ""
  | [x] => itemStr x
  | x :: y :: rest =>
    match itemStr x, joinItems (y :: rest) with
    | some a, some b => some (a ++ "," ++ b)
    | _, _ => none
/-- The text of one element in `join`. -/
def itemStr : JSVal → Option String
  | JSVal.undefined => some ""
  | JSVal.null => some ""
  | JSVal.bool b => toStr (JSVal.bool b)
  | JSVal.num x => toStr (JSVal.num x)
  | JSVal.str s => toStr (JSVal.str s)
  | JSVal.arr items => joinItems items
  | JSVal.obj props => toStr (JSVal.obj props)
end

/-- The conversion `Number(v)`; `none` is a thrown `TypeError`. -/
def toNum : JSVal → Option JSNum
  | JSVal.undefined => some JSNum.nan
  | JSVal.null => some (JSNum.fin 0)
  | JSVal.bool true => some (JSNum.fin 1)
  | JSVal.bool false => some (JSNum.fin 0)
  | JSVal.num x => some x
  | JSVal.str s => some (stringToNumber s)
  | v => (toStr v).map stringToNumber

/-- Truthiness of a value. -/
def truthy : JSVal → Bool
  | JSVal.undefined => false
  | JSVal.null => false
  | JSVal.bool b => b
  | JSVal.num x => x.truthy
  | JSVal.str s => s != ""
  | _ => true

/-- The property access `e.key` for a key that no built-in object defines;
`none` is the `TypeError` of reading a property of `null` or `undefined`. -/
def getProp (e : JSVal) (key : String) : Option JSVal :=
  match e with
  | JSVal.undefined => none
  | JSVal.null => none
  | JSVal.obj props => some ((props.lookup key).getD JSVal.undefined)
  | _ => some JSVal.undefined

/-- The method `Array.isArray`. -/
def isArray : JSVal → Bool
  | JSVal.arr _ => true
  | _ => false

/-! ## The data model -/

/-- One recorded income or expense. -/
structure Entry where
  id : String
  type : String
  description : String
  amount : JSNum
  createdAt : JSNum
deriving DecidableEq

/-- What `localStorage.getItem(LS_KEY)` returns: `null` (`absent`), the empty
text, a text on which `JSON.parse` throws (`malformed`), or a text that
`JSON.parse` turns into a value. -/
inductive Payload where
  | absent
  | empty
  | malformed
  | json (v : JSVal)

/-- The global `state`, and the `localStorage` slot next to it. -/
structure State where
  entries : List Entry
  filter : String
  storage : Payload

/-- What a handler leaves behind: the state, and the text it passed to `alert`. -/
structure Step where
  state : State
  alert : Option String

/-! ## Storage -/

/-- The callback of `parsed.map` in `loadEntries`; `none` is a thrown
`TypeError`. -/
def coerceEntry (now : Nat) (e : JSVal) : Option Entry :=
  match getProp e "id", getProp e "type", getProp e "description",
      getProp e "amount", getProp e "createdAt" with
  | some i, some t, some d, some a, some c =>
    match toStr i, toStr (if truthy d then d else JSVal.str ""), toNum a, toNum c with
    | some id, some description, some amount, some createdAt =>
      some
        { id := id
          type := match t with
            | JSVal.str "expense" => "expense"
            | _ => "income"
          description := description
          amount := JSNum.or amount (JSNum.fin 0)
          createdAt := JSNum.or createdAt (JSNum.fin (now : ℚ)) }
    | _, _, _, _ => none
  | _, _, _, _, _ => none

/-- The call `parsed.map(...)` in `loadEntries`; `none` when a callback throws. -/
def coerceAll (now : Nat) : List JSVal → Option (List Entry)
  | [] => some []
  | e :: es =>
    match coerceEntry now e, coerceAll now es with
    | some x, some xs => some (x :: xs)
    | _, _ => none

/-- The function `loadEntries`, reading the slot `raw` while `Date.now()` is
`now` (the clock is read as one value for all records of a load).  Every
exception is caught and gives the empty collection. -/
def loadEntries (now : Nat) (raw : Payload) : List Entry :=
  match raw with
  | Payload.absent => []
  | Payload.empty => []
  | Payload.malformed => []
  | Payload.json parsed =>
    match parsed with
    | JSVal.arr items => (coerceAll now items).getD []
    | _ => []

/-- A number in `JSON.stringify`: one that is not finite is written `null`. -/
def numberJSON : JSNum → JSVal
  | JSNum.fin q => JSVal.num (JSNum.fin q)
  | _ => JSVal.null

/-- An entry in `JSON.stringify`. -/
def entryJSON (e : Entry) : JSVal :=
  JSVal.obj
    [("id", JSVal.str e.id), ("type", JSVal.str e.type),
     ("description", JSVal.str e.description), ("amount", numberJSON e.amount),
     ("createdAt", numberJSON e.createdAt)]

/-- The function `saveEntries`: the content of the slot after
`localStorage.setItem(LS_KEY, JSON.stringify(entries))`. -/
def saveEntries (entries : List Entry) : Payload :=
  Payload.json (JSVal.arr (entries.map entryJSON))

/-! ## Event handlers -/

/-- The expression `String(v || "")` for a form field, `none` being `null`. -/
def fieldText (v : Option String) : String := v.getD ""

/-- The id of a new entry,
`crypto.randomUUID?.() || String(Date.now()) + Math.random().toString(16).slice(2)`:
`uuid` is what `crypto.randomUUID?.()` gives (`none` for `undefined`) and
`randomHex` the digits taken from `Math.random()`. -/
def newId (uuid : Option String) (randomHex : String) (now : Nat) : String :=
  match uuid with
  | some u => if u ≠ "" then u else numberToString (JSNum.fin (now : ℚ)) ++ randomHex
  | none => numberToString (JSNum.fin (now : ℚ)) ++ randomHex

/-- The handler `onAdd` of the form, for the fields `type`, `description` and
`amount` of the form data; `now` is what `Date.now()` gives while the handler
runs. -/
def onAdd (typeField descriptionField amountField : Option String)
    (uuid : Option String) (randomHex : String) (now : Nat) (st : State) : Step :=
  let description := trim (fieldText descriptionField)
  let amountRaw := trim (fieldText amountField)
  let amount := stringToNumber amountRaw
  if description = "" then
    { state := st, alert := some "Please enter a description." }
  else if amountRaw = "" ∨ amount.isNaN = true ∨ JSNum.le amount 0 = true then
    { state := st, alert := some "Please enter a valid positive amount." }
  else
    match typeField with
    | some type =>
      if type ≠ "income" ∧ type ≠ "expense" then
        { state := st, alert := some "Please select a valid type." }
      else
        let entry : Entry :=
          { id := newId uuid randomHex now
            type := type
            description := description
            amount := JSNum.toFixed2 amount
            createdAt := JSNum.fin (now : ℚ) }
        let entries := entry :: st.entries
        { state := { st with entries := entries, storage := saveEntries entries }
          alert := none }
    | none => { state := st, alert := some "Please select a valid type." }

/-- The function `setFilter`. -/
def setFilter (next : String) (st : State) : State :=
  { st with filter := next }

/-- What `render` shows: the rows of the list, the three totals, the class of
the net balance and whether the placeholder of the empty list is displayed. -/
structure View where
  filtered : List Entry
  income : JSNum
  expense : JSNum
  net : JSNum
  positive : Bool
  negative : Bool
  emptyState : Bool

/-- The function `render`. -/
def render (st : State) : View :=
  let filtered := st.entries.filter fun e =>
    if st.filter = "all" then true else decide (e.type = st.filter)
  let income := (st.entries.filter fun e => decide (e.type = "income")).foldl
    (fun sum e => sum + e.amount) 0
  let expense := (st.entries.filter fun e => decide (e.type = "expense")).foldl
    (fun sum e => sum + e.amount) 0
  let net := income - expense
  { filtered := filtered
    income := income
    expense := expense
    net := net
    positive := JSNum.le 0 net
    negative := JSNum.lt net 0
    emptyState := decide (filtered.length = 0) }

/-- The method `Array.prototype.findIndex`, `none` standing for `-1`. -/
def findIndex {α : Type} (p : α → Bool) : List α → Option Nat
  | [] => none
  | x :: xs => if p x then some 0 else (findIndex p xs).map (· + 1)

/-- The click handler of the Save button that `startInlineEdit` sets up for the
row of `entry`, reading the three inputs of the row. -/
def startInlineEdit_save (entry : Entry) (descValue amountValue typeValue : String)
    (st : State) : Step :=
  let description := trim descValue
  let amount := stringToNumber amountValue
  let type := typeValue
  if description = "" then
    { state := st, alert := some "Description cannot be empty." }
  else if amount.truthy = false ∨ amount.isNaN = true ∨ JSNum.le amount 0 = true then
    { state := st, alert := some "Enter a valid positive amount." }
  else if type ≠ "income" ∧ type ≠ "expense" then
    { state := st, alert := some "Select a valid type." }
  else
    match findIndex (fun e => decide (e.id = entry.id)) st.entries with
    | some idx =>
      let entries := st.entries.modify
        (fun old =>
          { old with
            description := description
            amount := JSNum.toFixed2 amount
            type := type })
        idx
      { state := { st with entries := entries, storage := saveEntries entries }
        alert := none }
    | none => { state := st, alert := none }

/-- The function `onDelete`, `ok` being the answer to `confirm`. -/
def onDelete (ok : Bool) (id : String) (st : State) : Step :=
  if ok = false then { state := st, alert := none }
  else
    let entries := st.entries.filter fun e => decide (e.id ≠ id)
    { state := { st with entries := entries, storage := saveEntries entries }
      alert := none }

/-- The state when the script has run: the collection is loaded from the slot
and the filter is `all`. -/
def initialState (now : Nat) (raw : Payload) : State :=
  { entries := loadEntries now raw, filter := "all", storage := raw }

/-- What the user does. -/
inductive Action where
  | add (typeField descriptionField amountField : Option String)
      (uuid : Option String) (randomHex : String) (now : Nat)
  | save (entry : Entry) (descValue amountValue typeValue : String)
  | delete (ok : Bool) (id : String)
  | filter (next : String)

/-- The state after one action. -/
def step (st : State) : Action → State
  | Action.add t d a uuid randomHex now => (onAdd t d a uuid randomHex now st).state
  | Action.save entry d a t => (startInlineEdit_save entry d a t st).state
  | Action.delete ok id => (onDelete ok id st).state
  | Action.filter next => setFilter next st

/-- The state after a sequence of actions. -/
def run (st : State) (actions : List Action) : State :=
  actions.foldl step st

/-! ## Vocabulary of the specification -/

/-- The sum of `amount` over the entries of one type, for a collection given
from its last entry to its first: the amount of an entry is added to the sum
of the entries that stand before it. -/
def totalRev (type : String) : List Entry → JSNum
  | [] => 0
  | e :: before =>
    if e.type = type then totalRev type before + e.amount else totalRev type before

/-- The sum of `amount` over the entries of one type, as §4.3 words it: the
amounts are added in the order of the collection, in the arithmetic of
JavaScript numbers. -/
def totalOf (type : String) (entries : List Entry) : JSNum :=
  totalRev type entries.reverse

/-- The input the validator of §4.5 accepts: a description that is not empty
once trimmed, an amount that is a number greater than zero (no comparison with
`NaN` holds), and one of the two types. -/
def ValidInput (description amount : String) (type : Option String) : Prop :=
  trim description ≠ "" ∧ JSNum.lt 0 (stringToNumber amount) = true ∧
    (type = some "income" ∨ type = some "expense")

instance (description amount : String) (type : Option String) :
    Decidable (ValidInput description amount type) := by
  unfold ValidInput; infer_instance

/-- The input the validator of §4.5 rejects: a description that is empty once
trimmed, an amount that is not a number, is zero or is negative, or a type that
is neither of the two. -/
def InvalidInput (description amount : String) (type : Option String) : Prop :=
  trim description = "" ∨ stringToNumber amount = JSNum.nan ∨
    JSNum.le (stringToNumber amount) 0 = true ∨
    (type ≠ some "income" ∧ type ≠ some "expense")

instance (description amount : String) (type : Option String) :
    Decidable (InvalidInput description amount type) := by
  unfold InvalidInput; infer_instance

/-- The number `a` is the finite number `q` rounded to two fractional digits:
there is a decimal `n / 100` at a distance of half a hundredth at most from
`q`, and `a` is the double that this decimal denotes. -/
def RoundedTo2 (q : ℚ) (a : JSNum) : Prop :=
  ∃ n : ℤ, |(n : ℚ) / 100 - q| ≤ 1 / 200 ∧ a = JSNum.toDouble ((n : ℚ) / 100)

/-- A number rounded to two fractional digits: a finite double that a decimal
`n / 100` denotes. -/
def HasTwoFractionDigits (x : JSNum) : Prop :=
  ∃ (n : ℤ) (q : ℚ), x = JSNum.fin q ∧ JSNum.toDouble ((n : ℚ) / 100) = JSNum.fin q

/-- An amount as the data model wants it stored: greater than zero and rounded
to two fractional digits. -/
def StoredAmountOk (x : JSNum) : Prop :=
  JSNum.lt 0 x = true ∧ HasTwoFractionDigits x

/-- The ids of a collection, in order. -/
def ids (entries : List Entry) : List String := entries.map fun e => e.id

/-- A number that `JSON.stringify` writes as a number: neither `NaN` nor an
infinity. -/
def isFinite : JSNum → Bool
  | JSNum.fin _ => true
  | _ => false

/-- An entry that the load path takes as it is: its type is one of the two, its
amount is finite, and its creation time is finite and not zero. -/
def WellFormed (e : Entry) : Prop :=
  (e.type = "income" ∨ e.type = "expense") ∧ isFinite e.amount = true ∧
    isFinite e.createdAt = true ∧ e.createdAt ≠ JSNum.fin 0

instance (e : Entry) : Decidable (WellFormed e) := by
  unfold WellFormed; infer_instance

/-- Every id that an add action of the sequence generates is different from the
ids the collection holds at that moment. -/
def addsFreshIds : State → List Action → Bool
  | _, [] => true
  | st, a :: rest =>
    (match a with
      | Action.add _ _ _ uuid randomHex now =>
        !(ids st.entries).contains (newId uuid randomHex now)
      | _ => true) &&
    addsFreshIds (step st a) rest

/-- The text of an amount denotes neither a number strictly between zero and
half a hundredth nor an infinite one. -/
def amountKept (text : String) : Bool :=
  !(JSNum.lt 0 (stringToNumber text) &&
      JSNum.lt (stringToNumber text) (JSNum.fin (1 / 200))) &&
    decide (stringToNumber text ≠ JSNum.posInf)

/-- The amount that an add or an edit-save action carries is neither strictly
between zero and half a hundredth nor infinite. -/
def Action.amountKept : Action → Bool
  | Action.add _ _ amountField _ _ _ => IncomeExpense.amountKept (fieldText amountField)
  | Action.save _ _ amountValue _ => IncomeExpense.amountKept amountValue
  | _ => true

/-! ## The ledger of the scenarios of §8 -/

/-- The entry that the scenario adds first. -/
def salary : Entry :=
  { id := "id-salary", type := "income", description := "Salary",
    amount := JSNum.fin 50000, createdAt := JSNum.fin 1700000000000 }

/-- The entry that the scenario adds second. -/
def rent : Entry :=
  { id := "id-rent", type := "expense", description := "Rent",
    amount := JSNum.fin 15000, createdAt := JSNum.fin 1700000060000 }

/-- The state after the first add of the scenario. -/
def ledgerOne : State :=
  { entries := [salary], filter := "all", storage := saveEntries [salary] }

/-- The state after both adds of the scenario. -/
def ledgerTwo : State :=
  { entries := [rent, salary], filter := "all", storage := saveEntries [rent, salary] }

/-! ## Lemmas on doubles -/

namespace JSNum

theorem pow2_eq (k : ℤ) : pow2 k = (2 : ℚ) ^ k := by
  unfold pow2
  split
  · rename_i h
    lift k to ℕ using h
    simp
  · rename_i h
    push_neg at h
    have hk : k = -((-k).toNat : ℤ) := by
      rw [Int.toNat_of_nonneg (by omega)]; ring
    conv_rhs => rw [hk]
    rw [zpow_neg, zpow_natCast]
    simp

theorem pow2_pos (k : ℤ) : 0 < pow2 k := by
  rw [pow2_eq]; positivity

theorem pow2_le_iff (j k : ℤ) : pow2 j ≤ pow2 k ↔ j ≤ k := by
  rw [pow2_eq, pow2_eq]
  exact zpow_le_zpow_iff_right₀ (by norm_num)

theorem pow2_lt_iff (j k : ℤ) : pow2 j < pow2 k ↔ j < k := by
  rw [pow2_eq, pow2_eq]
  exact zpow_lt_zpow_iff_right₀ (by norm_num)

theorem pow2_add (j k : ℤ) : pow2 (j + k) = pow2 j * pow2 k := by
  rw [pow2_eq, pow2_eq, pow2_eq]
  exact zpow_add₀ (by norm_num) j k

theorem pow2_sub (j k : ℤ) : pow2 (j - k) = pow2 j / pow2 k := by
  rw [pow2_eq, pow2_eq, pow2_eq]
  exact zpow_sub₀ (by norm_num) j k

theorem pow2_natCast (n : ℕ) : pow2 (n : ℤ) = ((2 ^ n : ℕ) : ℚ) := by
  rw [pow2_eq]; simp

theorem bitLength_zero (fuel : Nat) : bitLength 0 fuel = 0 := by
  cases fuel <;> simp [bitLength]

theorem bitLength_spec (fuel n : Nat) (h : n ≤ fuel) (hn : n ≠ 0) :
    ∃ b, bitLength n fuel = b + 1 ∧ 2 ^ b ≤ n ∧ n < 2 ^ (b + 1) := by
  induction fuel generalizing n with
  | zero => omega
  | succ fuel ih =>
    simp only [bitLength, hn, if_false]
    by_cases h2 : n / 2 = 0
    · refine ⟨0, by simp [h2, bitLength_zero], ?_, ?_⟩ <;> omega
    · obtain ⟨b, hb, hlo, hhi⟩ := ih (n / 2) (by omega) h2
      refine ⟨b + 1, by rw [hb], ?_, ?_⟩
      · rw [pow_succ]; omega
      · rw [pow_succ] at hhi ⊢; omega

theorem ilog2_spec (a : ℚ) (ha : 0 < a) : pow2 (ilog2 a) ≤ a ∧ a < pow2 (ilog2 a + 1) := by
  have hnum : 0 < a.num := Rat.num_pos.2 ha
  have hp0 : a.num.natAbs ≠ 0 := by omega
  have hd0 : a.den ≠ 0 := a.den_nz
  obtain ⟨bp, hbp, hplo, hphi⟩ := bitLength_spec _ _ (le_refl a.num.natAbs) hp0
  obtain ⟨bd, hbd, hdlo, hdhi⟩ := bitLength_spec _ _ (le_refl a.den) hd0
  have hae : a = (a.num.natAbs : ℚ) / (a.den : ℚ) := by
    have h1 : ((a.num.natAbs : ℕ) : ℚ) = (a.num : ℚ) := by
      rw [Nat.cast_natAbs, abs_of_pos hnum]
    rw [h1]
    exact (Rat.num_div_den a).symm
  have hdpos : (0 : ℚ) < a.den := by exact_mod_cast Nat.pos_of_ne_zero hd0
  have hk : ((bitLength a.num.natAbs a.num.natAbs : ℤ) - (bitLength a.den a.den : ℤ))
      = (bp : ℤ) - (bd : ℤ) := by
    rw [hbp, hbd]; push_cast; ring
  have hplo' : ((2 ^ bp : ℕ) : ℚ) ≤ (a.num.natAbs : ℚ) := by exact_mod_cast hplo
  have hphi' : (a.num.natAbs : ℚ) < ((2 ^ (bp + 1) : ℕ) : ℚ) := by exact_mod_cast hphi
  have hdlo' : ((2 ^ bd : ℕ) : ℚ) ≤ (a.den : ℚ) := by exact_mod_cast hdlo
  have hdhi' : (a.den : ℚ) < ((2 ^ (bd + 1) : ℕ) : ℚ) := by exact_mod_cast hdhi
  have hbdpos : (0 : ℚ) < ((2 ^ bd : ℕ) : ℚ) := by positivity
  -- upper bound a < 2^(k+1)
  have hup : a < pow2 ((bp : ℤ) - (bd : ℤ) + 1) := by
    have : (bp : ℤ) - (bd : ℤ) + 1 = ((bp + 1 : ℕ) : ℤ) - ((bd : ℕ) : ℤ) := by push_cast; ring
    rw [this, pow2_sub, pow2_natCast, pow2_natCast, hae, div_lt_div_iff₀ hdpos hbdpos]
    calc (a.num.natAbs : ℚ) * ((2 ^ bd : ℕ) : ℚ)
        < ((2 ^ (bp + 1) : ℕ) : ℚ) * ((2 ^ bd : ℕ) : ℚ) := by
          exact mul_lt_mul_of_pos_right hphi' hbdpos
      _ ≤ ((2 ^ (bp + 1) : ℕ) : ℚ) * (a.den : ℚ) := by
          exact mul_le_mul_of_nonneg_left hdlo' (by positivity)
  -- lower bound 2^(k-1) ≤ a
  have hlow : pow2 ((bp : ℤ) - (bd : ℤ) - 1) ≤ a := by
    have : (bp : ℤ) - (bd : ℤ) - 1 = ((bp : ℕ) : ℤ) - ((bd + 1 : ℕ) : ℤ) := by push_cast; ring
    have hb1 : (0 : ℚ) < ((2 ^ (bd + 1) : ℕ) : ℚ) := by positivity
    rw [this, pow2_sub, pow2_natCast, pow2_natCast, hae, div_le_div_iff₀ hb1 hdpos]
    calc ((2 ^ bp : ℕ) : ℚ) * (a.den : ℚ)
        ≤ (a.num.natAbs : ℚ) * (a.den : ℚ) := by
          exact mul_le_mul_of_nonneg_right hplo' hdpos.le
      _ ≤ (a.num.natAbs : ℚ) * ((2 ^ (bd + 1) : ℕ) : ℚ) := by
          exact mul_le_mul_of_nonneg_left hdhi'.le (by positivity)
  unfold ilog2
  simp only [hk]
  split
  · rename_i h
    exact ⟨h, hup⟩
  · rename_i h
    push_neg at h
    refine ⟨hlow, ?_⟩
    have : (bp : ℤ) - (bd : ℤ) - 1 + 1 = (bp : ℤ) - (bd : ℤ) := by ring
    rw [this]
    exact h

theorem ilog2_unique (a : ℚ) (ha : 0 < a) (k : ℤ) (hlo : pow2 k ≤ a) (hhi : a < pow2 (k + 1)) :
    ilog2 a = k := by
  obtain ⟨h1, h2⟩ := ilog2_spec a ha
  have h3 : pow2 k < pow2 (ilog2 a + 1) := lt_of_le_of_lt hlo h2
  have h4 : pow2 (ilog2 a) < pow2 (k + 1) := lt_of_le_of_lt h1 hhi
  rw [pow2_lt_iff] at h3 h4
  omega

theorem roundHalfEven_le (x : ℚ) : (roundHalfEven x : ℚ) ≤ x + 1 / 2 := by
  have h1 := Int.floor_le x
  have h2 := Int.lt_floor_add_one x
  unfold roundHalfEven
  split
  · linarith
  · split
    · push_cast; linarith
    · split
      · linarith
      · push_cast; linarith

theorem le_roundHalfEven (x : ℚ) : x - 1 / 2 ≤ (roundHalfEven x : ℚ) := by
  have h1 := Int.floor_le x
  have h2 := Int.lt_floor_add_one x
  unfold roundHalfEven
  split
  · linarith
  · split
    · push_cast; linarith
    · split
      · linarith
      · push_cast; linarith

theorem roundHalfEven_intCast (n : ℤ) : roundHalfEven (n : ℚ) = n := by
  unfold roundHalfEven
  simp


theorem ulp_pos (a : ℚ) : 0 < ulp a := pow2_pos _

theorem pow2_of_nonneg (d : ℤ) (hd : 0 ≤ d) : pow2 d = (((2 : ℤ) ^ d.toNat : ℤ) : ℚ) := by
  unfold pow2
  simp [hd]

theorem two_pow_53 : (2 : ℚ) ^ 53 = pow2 53 := by
  rw [pow2_eq]; norm_num

theorem two_pow_52 : (2 : ℚ) ^ 52 = pow2 52 := by
  rw [pow2_eq]; norm_num

theorem roundPos_grid (a : ℚ) (ha : 0 < a) :
    ∃ m : ℤ, 0 ≤ m ∧ m ≤ 2 ^ 53 ∧
      roundPos a = (m : ℚ) * pow2 (max (ilog2 a) (-1022) - 52) := by
  refine ⟨roundHalfEven (a / ulp a), ?_, ?_, rfl⟩
  · have h := le_roundHalfEven (a / ulp a)
    have hpos : 0 < a / ulp a := div_pos ha (ulp_pos a)
    have h1 : (-1 : ℚ) < (roundHalfEven (a / ulp a) : ℚ) := by linarith
    have h2 : (-1 : ℤ) < roundHalfEven (a / ulp a) := by exact_mod_cast h1
    omega
  · have h := roundHalfEven_le (a / ulp a)
    have hlt : a / ulp a < 2 ^ 53 := by
      rw [div_lt_iff₀ (ulp_pos a)]
      have h2 := (ilog2_spec a ha).2
      have h3 : pow2 (ilog2 a + 1) ≤ 2 ^ 53 * ulp a := by
        unfold ulp
        rw [two_pow_53, ← pow2_add, pow2_le_iff]
        have := le_max_left (ilog2 a) (-1022)
        omega
      linarith
    have h1 : (roundHalfEven (a / ulp a) : ℚ) < 2 ^ 53 + 1 := by linarith
    have h2 : roundHalfEven (a / ulp a) < 2 ^ 53 + 1 := by exact_mod_cast h1
    omega

theorem roundPos_normal (a : ℚ) (ha : 0 < a) (he : -1022 ≤ ilog2 a) :
    pow2 (ilog2 a) ≤ roundPos a ∧ roundPos a ≤ pow2 (ilog2 a + 1) := by
  have hu : ulp a = pow2 (ilog2 a - 52) := by
    unfold ulp; rw [max_eq_left he]
  have hup := ulp_pos a
  obtain ⟨hlo, hhi⟩ := ilog2_spec a ha
  have hx : (2 : ℚ) ^ 52 ≤ a / ulp a := by
    rw [le_div_iff₀ hup, hu, two_pow_52, ← pow2_add]
    have : (52 : ℤ) + (ilog2 a - 52) = ilog2 a := by ring
    rw [this]; exact hlo
  have hx2 : a / ulp a < (2 : ℚ) ^ 53 := by
    rw [div_lt_iff₀ hup, hu, two_pow_53, ← pow2_add]
    have : (53 : ℤ) + (ilog2 a - 52) = ilog2 a + 1 := by ring
    rw [this]; exact hhi
  have hm1 : (2 : ℤ) ^ 52 ≤ roundHalfEven (a / ulp a) := by
    have h := le_roundHalfEven (a / ulp a)
    have h1 : ((2 : ℤ) ^ 52 : ℚ) - 1 < (roundHalfEven (a / ulp a) : ℚ) := by
      push_cast; linarith
    have h2 : (2 : ℤ) ^ 52 - 1 < roundHalfEven (a / ulp a) := by exact_mod_cast h1
    omega
  have hm2 : roundHalfEven (a / ulp a) ≤ (2 : ℤ) ^ 53 := by
    have h := roundHalfEven_le (a / ulp a)
    have h1 : (roundHalfEven (a / ulp a) : ℚ) < ((2 : ℤ) ^ 53 : ℚ) + 1 := by
      push_cast; linarith
    have h2 : roundHalfEven (a / ulp a) < (2 : ℤ) ^ 53 + 1 := by exact_mod_cast h1
    omega
  have hm1' : (2 : ℚ) ^ 52 ≤ (roundHalfEven (a / ulp a) : ℚ) := by exact_mod_cast hm1
  have hm2' : (roundHalfEven (a / ulp a) : ℚ) ≤ (2 : ℚ) ^ 53 := by exact_mod_cast hm2
  unfold roundPos
  constructor
  · calc pow2 (ilog2 a) = (2 : ℚ) ^ 52 * ulp a := by
          rw [hu, two_pow_52, ← pow2_add]; congr 1; ring
      _ ≤ (roundHalfEven (a / ulp a) : ℚ) * ulp a :=
          mul_le_mul_of_nonneg_right hm1' hup.le
  · calc (roundHalfEven (a / ulp a) : ℚ) * ulp a ≤ (2 : ℚ) ^ 53 * ulp a :=
          mul_le_mul_of_nonneg_right hm2' hup.le
      _ = pow2 (ilog2 a + 1) := by
          rw [hu, two_pow_53, ← pow2_add]; congr 1; ring

theorem roundPos_of_grid_lt (v : ℚ) (m j : ℤ) (hm : 0 < m) (hm2 : m < 2 ^ 53)
    (hj : -1074 ≤ j) (hv : v = (m : ℚ) * pow2 j) : roundPos v = v := by
  have hmq : (0 : ℚ) < (m : ℚ) := by exact_mod_cast hm
  have hvpos : 0 < v := by rw [hv]; exact mul_pos hmq (pow2_pos j)
  have hvlt : v < pow2 (j + 53) := by
    have : (m : ℚ) < (2 : ℚ) ^ 53 := by exact_mod_cast hm2
    rw [hv, add_comm, pow2_add, ← two_pow_53]
    exact mul_lt_mul_of_pos_right this (pow2_pos j)
  have he : ilog2 v < j + 53 := by
    have := lt_of_le_of_lt (ilog2_spec v hvpos).1 hvlt
    rwa [pow2_lt_iff] at this
  obtain ⟨c, hcdef⟩ : ∃ c : ℤ, c = max (ilog2 v) (-1022) - 52 := ⟨_, rfl⟩
  have hc : c ≤ j := by
    have : max (ilog2 v) (-1022) ≤ j + 52 := max_le (by omega) (by omega)
    omega
  have hu : ulp v = pow2 c := by unfold ulp; rw [hcdef]
  have hd0 : 0 ≤ j - c := by omega
  have hpj : pow2 j = pow2 c * pow2 (j - c) := by
    rw [← pow2_add]; congr 1; ring
  have hdiv : v / ulp v = (((m * (2 : ℤ) ^ (j - c).toNat : ℤ)) : ℚ) := by
    rw [hu, div_eq_iff (pow2_pos c).ne', hv, hpj, pow2_of_nonneg (j - c) hd0]
    push_cast
    ring
  unfold roundPos
  rw [hdiv, roundHalfEven_intCast, ← hdiv]
  exact div_mul_cancel₀ _ (ulp_pos v).ne'

theorem roundPos_of_grid (v : ℚ) (m j : ℤ) (hm : 0 < m) (hm2 : m ≤ 2 ^ 53)
    (hj : -1074 ≤ j) (hv : v = (m : ℚ) * pow2 j) : roundPos v = v := by
  rcases lt_or_eq_of_le hm2 with h | h
  · exact roundPos_of_grid_lt v m j hm h hj hv
  · apply roundPos_of_grid_lt v (2 ^ 52) (j + 1) (by norm_num) (by norm_num) (by omega)
    rw [hv, h, pow2_add]
    have : pow2 1 = 2 := by rw [pow2_eq]; norm_num
    rw [this]
    push_cast
    ring

theorem roundPos_idem (a : ℚ) (ha : 0 < a) (hv : roundPos a ≠ 0) :
    roundPos (roundPos a) = roundPos a := by
  obtain ⟨m, hm0, hm2, hm⟩ := roundPos_grid a ha
  have hmpos : 0 < m := by
    rcases lt_or_eq_of_le hm0 with h | h
    · exact h
    · exfalso; apply hv; rw [hm, ← h]; simp
  apply roundPos_of_grid _ m _ hmpos hm2 _ hm
  have := le_max_right (ilog2 a) (-1022)
  omega

theorem roundPos_nonneg (a : ℚ) (ha : 0 < a) : 0 ≤ roundPos a := by
  obtain ⟨m, hm0, _, hm⟩ := roundPos_grid a ha
  rw [hm]
  have : (0 : ℚ) ≤ (m : ℚ) := by exact_mod_cast hm0
  exact mul_nonneg this (pow2_pos _).le

theorem roundPos_large_int (a : ℚ) (ha : 0 < a) (hbig : (10 : ℚ) ^ 21 ≤ roundPos a) :
    ∃ n : ℤ, roundPos a = (n : ℚ) := by
  obtain ⟨m, hm0, hm2, hm⟩ := roundPos_grid a ha
  obtain ⟨j, hj⟩ : ∃ j : ℤ, j = max (ilog2 a) (-1022) - 52 := ⟨_, rfl⟩
  rw [← hj] at hm
  have hj0 : 0 ≤ j := by
    by_contra hneg
    push_neg at hneg
    have h1 : pow2 j < pow2 0 := (pow2_lt_iff j 0).2 hneg
    have h2 : pow2 0 = 1 := by rw [pow2_eq]; norm_num
    have h3 : (m : ℚ) ≤ (2 : ℚ) ^ 53 := by exact_mod_cast hm2
    have h4 : (0 : ℚ) ≤ (m : ℚ) := by exact_mod_cast hm0
    have h5 : roundPos a ≤ (2 : ℚ) ^ 53 := by
      rw [hm]
      calc (m : ℚ) * pow2 j ≤ (m : ℚ) * 1 := by
            apply mul_le_mul_of_nonneg_left _ h4
            rw [← h2]; exact h1.le
        _ ≤ (2 : ℚ) ^ 53 := by rw [mul_one]; exact h3
    have h6 : (2 : ℚ) ^ 53 < (10 : ℚ) ^ 21 := by norm_num
    linarith
  refine ⟨m * (2 : ℤ) ^ j.toNat, ?_⟩
  rw [hm, pow2_of_nonneg j hj0]
  push_cast
  ring


theorem toDouble_zero : toDouble 0 = fin 0 := by
  simp [toDouble]

theorem toDouble_idem (r q : ℚ) (h : toDouble r = fin q) : toDouble q = fin q := by
  unfold toDouble at h
  by_cases h0 : r = 0
  · simp only [h0, if_true, fin.injEq] at h
    rw [← h]; exact toDouble_zero
  · simp only [h0, if_false] at h
    by_cases hneg : r < 0
    · simp only [hneg, if_true] at h
      have hpos : 0 < -r := by linarith
      by_cases hov : pow2 1024 ≤ roundPos (-r)
      · simp [hov] at h
      · simp only [hov, if_false, fin.injEq] at h
        by_cases hv : roundPos (-r) = 0
        · rw [hv] at h
          rw [← h]; simp [toDouble_zero]
        · have hvpos : 0 < roundPos (-r) :=
            lt_of_le_of_ne (roundPos_nonneg _ hpos) (Ne.symm hv)
          have hq : q < 0 := by rw [← h]; linarith
          have hq0 : q ≠ 0 := ne_of_lt hq
          have hnq : -q = roundPos (-r) := by rw [← h]; ring
          unfold toDouble
          simp only [hq0, hq, if_false, if_true]
          rw [hnq, roundPos_idem _ hpos hv]
          simp only [hov, if_false, fin.injEq]
          rw [← h]
    · simp only [hneg, if_false] at h
      have hpos : 0 < r := lt_of_le_of_ne (not_lt.1 hneg) (Ne.symm h0)
      by_cases hov : pow2 1024 ≤ roundPos r
      · simp [hov] at h
      · simp only [hov, if_false, fin.injEq] at h
        by_cases hv : roundPos r = 0
        · rw [hv] at h
          rw [← h]; exact toDouble_zero
        · have hvpos : 0 < roundPos r :=
            lt_of_le_of_ne (roundPos_nonneg _ hpos) (Ne.symm hv)
          have hq : 0 < q := by rw [← h]; exact hvpos
          have hq0 : q ≠ 0 := ne_of_gt hq
          have hnq : ¬ q < 0 := not_lt.2 hq.le
          unfold toDouble
          simp only [hq0, hnq, if_false]
          rw [← h, roundPos_idem _ hpos hv]
          simp only [hov, if_false]

theorem toDouble_large_int (r q : ℚ) (h : toDouble r = fin q) (hbig : (10 : ℚ) ^ 21 ≤ |q|) :
    ∃ n : ℤ, q = (n : ℚ) := by
  unfold toDouble at h
  by_cases h0 : r = 0
  · simp only [h0, if_true, fin.injEq] at h
    exact ⟨0, by rw [← h]; simp⟩
  · simp only [h0, if_false] at h
    by_cases hneg : r < 0
    · simp only [hneg, if_true] at h
      have hpos : 0 < -r := by linarith
      by_cases hov : pow2 1024 ≤ roundPos (-r)
      · simp [hov] at h
      · simp only [hov, if_false, fin.injEq] at h
        have hb : (10 : ℚ) ^ 21 ≤ roundPos (-r) := by
          rw [← h, abs_neg, abs_of_nonneg (roundPos_nonneg _ hpos)] at hbig
          exact hbig
        obtain ⟨n, hn⟩ := roundPos_large_int _ hpos hb
        exact ⟨-n, by rw [← h, hn]; push_cast; ring⟩
    · simp only [hneg, if_false] at h
      have hpos : 0 < r := lt_of_le_of_ne (not_lt.1 hneg) (Ne.symm h0)
      by_cases hov : pow2 1024 ≤ roundPos r
      · simp [hov] at h
      · simp only [hov, if_false, fin.injEq] at h
        have hb : (10 : ℚ) ^ 21 ≤ roundPos r := by
          rw [← h, abs_of_nonneg (roundPos_nonneg _ hpos)] at hbig
          exact hbig
        obtain ⟨n, hn⟩ := roundPos_large_int _ hpos hb
        exact ⟨n, by rw [← h, hn]⟩

theorem toDouble_pos_fin (r : ℚ) (h1 : 1 / 100 ≤ r) (h2 : r < (10 : ℚ) ^ 22) :
    ∃ q : ℚ, 0 < q ∧ toDouble r = fin q := by
  have hpos : 0 < r := by linarith
  have h0 : r ≠ 0 := ne_of_gt hpos
  have hneg : ¬ r < 0 := not_lt.2 hpos.le
  obtain ⟨hlo, hhi⟩ := ilog2_spec r hpos
  have he1 : -7 ≤ ilog2 r := by
    have h7 : pow2 (-7) ≤ r := by
      have : pow2 (-7) = 1 / 128 := by rw [pow2_eq]; norm_num
      rw [this]; linarith
    have := lt_of_le_of_lt h7 hhi
    rw [pow2_lt_iff] at this
    omega
  have he2 : ilog2 r < 100 := by
    have h100 : r < pow2 100 := by
      have : pow2 100 = (2 : ℚ) ^ 100 := by rw [pow2_eq]; norm_num
      rw [this]
      have : (10 : ℚ) ^ 22 < (2 : ℚ) ^ 100 := by norm_num
      linarith
    have := lt_of_le_of_lt hlo h100
    rwa [pow2_lt_iff] at this
  obtain ⟨hn1, hn2⟩ := roundPos_normal r hpos (by omega)
  have hvpos : 0 < roundPos r := lt_of_lt_of_le (pow2_pos _) hn1
  have hov : ¬ pow2 1024 ≤ roundPos r := by
    push_neg
    apply lt_of_le_of_lt hn2
    rw [pow2_lt_iff]; omega
  exact ⟨roundPos r, hvpos, by unfold toDouble; simp only [h0, hneg, hov, if_false]⟩

end JSNum

/-! ## Lemmas on texts and numbers -/

theorem trimChars_idem (l : List Char) : trimChars (trimChars l) = trimChars l := by
  unfold trimChars
  have h1 : List.dropWhile isWhiteSpace
      ((l.dropWhile isWhiteSpace).rdropWhile isWhiteSpace)
      = (l.dropWhile isWhiteSpace).rdropWhile isWhiteSpace := by
    generalize hm : l.dropWhile isWhiteSpace = m
    have hm2 : m.dropWhile isWhiteSpace = m := by
      rw [← hm]; exact List.dropWhile_idempotent _ _
    cases m with
    | nil => simp
    | cons a t =>
      have ha : isWhiteSpace a = false := by
        by_contra hc
        simp at hc
        rw [List.dropWhile_cons_of_pos hc] at hm2
        have := List.dropWhile_suffix (l := t) isWhiteSpace
        rw [hm2] at this
        have := this.length_le
        simp at this
      obtain ⟨r, hr⟩ := List.rdropWhile_prefix (p := isWhiteSpace) (l := a :: t)
      cases hrd : (a :: t).rdropWhile isWhiteSpace with
      | nil => simp
      | cons b u =>
        rw [hrd] at hr
        simp at hr
        rw [hr.1]
        simp [ha]
  rw [h1, List.rdropWhile_idempotent]

theorem stringToNumber_trim (s : String) : stringToNumber (trim s) = stringToNumber s := by
  simp [stringToNumber, trim, trimChars_idem]

theorem trim_eq_empty_iff (s : String) : trim s = "" ↔ trimChars s.data = [] := by
  unfold trim
  constructor
  · intro h
    have := congrArg String.data h
    simpa using this
  · intro h
    rw [h]

theorem stringToNumber_of_trim_empty (s : String) (h : trim s = "") :
    stringToNumber s = JSNum.fin 0 := by
  rw [trim_eq_empty_iff] at h
  simp [stringToNumber, h]

namespace JSNum

theorem zero_def : (0 : JSNum) = fin 0 := rfl

theorem lt_zero_iff (x : JSNum) :
    lt 0 x = true ↔ isNaN x = false ∧ le x 0 = false := by
  cases x <;> simp [lt, le, isNaN, zero_def]

theorem truthy_of_pos (x : JSNum) (h : lt 0 x = true) : truthy x = true := by
  cases x <;> simp_all [lt, truthy, zero_def]
  exact ne_of_gt h

theorem isNaN_iff (x : JSNum) : isNaN x = true ↔ x = nan := by
  cases x <;> simp [isNaN]

end JSNum

theorem valid_iff_not_invalid (d a : String) (t : Option String) :
    ValidInput d a t ↔ ¬ InvalidInput d a t := by
  unfold ValidInput InvalidInput
  rw [JSNum.lt_zero_iff]
  have : stringToNumber a = JSNum.nan ↔ (stringToNumber a).isNaN = true := (JSNum.isNaN_iff _).symm
  rw [this]
  cases (stringToNumber a).isNaN <;> cases (JSNum.le (stringToNumber a) 0) <;>
    first | (simp; done) | (simp; tauto)


theorem onAdd_valid (st : State) (typeField descriptionField amountField : Option String)
    (uuid : Option String) (randomHex : String) (now : Nat)
    (h : ValidInput (fieldText descriptionField) (fieldText amountField) typeField) :
    onAdd typeField descriptionField amountField uuid randomHex now st =
      { state :=
          { st with
            entries :=
              { id := newId uuid randomHex now
                type := typeField.getD ""
                description := trim (fieldText descriptionField)
                amount := JSNum.toFixed2 (stringToNumber (fieldText amountField))
                createdAt := JSNum.fin (now : ℚ) } :: st.entries
            storage := saveEntries
              ({ id := newId uuid randomHex now
                 type := typeField.getD ""
                 description := trim (fieldText descriptionField)
                 amount := JSNum.toFixed2 (stringToNumber (fieldText amountField))
                 createdAt := JSNum.fin (now : ℚ) } :: st.entries) }
        alert := none } := by
  obtain ⟨hd, hp, ht⟩ := h
  have hne : trim (fieldText amountField) ≠ "" := by
    intro he
    rw [stringToNumber_of_trim_empty _ he] at hp
    simp [JSNum.lt, JSNum.zero_def] at hp
  obtain ⟨hn, hl⟩ := (JSNum.lt_zero_iff _).1 hp
  unfold onAdd
  simp only [stringToNumber_trim, hd, hne, hn, hl, if_false, false_or, Bool.false_eq_true]
  rcases ht with ht | ht <;> subst ht <;> simp

theorem onAdd_invalid (st : State) (typeField descriptionField amountField : Option String)
    (uuid : Option String) (randomHex : String) (now : Nat)
    (h : InvalidInput (fieldText descriptionField) (fieldText amountField) typeField) :
    (onAdd typeField descriptionField amountField uuid randomHex now st).state = st := by
  unfold onAdd
  simp only [stringToNumber_trim]
  split
  · rfl
  · split
    · rfl
    · rename_i h1 h2
      rcases h with h | h | h | h
      · exact absurd h h1
      · exact absurd (Or.inr (Or.inl ((JSNum.isNaN_iff _).2 h))) h2
      · exact absurd (Or.inr (Or.inr h)) h2
      · cases typeField with
        | none => rfl
        | some t =>
          have : t ≠ "income" ∧ t ≠ "expense" := by
            constructor <;> intro hc <;> subst hc <;> simp at h
          simp [this]

/-! ## Lemmas on the handlers -/

theorem findIndex_eq_none {α : Type} (p : α → Bool) (l : List α)
    (h : ∀ x ∈ l, p x = false) : findIndex p l = none := by
  induction l with
  | nil => rfl
  | cons a t ih =>
    have ha : p a = false := h a (List.mem_cons_self _ _)
    have ht : ∀ x ∈ t, p x = false := fun x hx => h x (List.mem_cons_of_mem _ hx)
    simp [findIndex, ha, ih ht]

theorem findIndex_of_nodup (x : String) (l : List Entry) (i : Nat) (old : Entry)
    (hn : (ids l).Nodup) (hi : l[i]? = some old) (hid : old.id = x) :
    findIndex (fun e => decide (e.id = x)) l = some i := by
  induction l generalizing i with
  | nil => simp at hi
  | cons a t ih =>
    cases i with
    | zero =>
      simp at hi
      subst hi
      simp [findIndex, hid]
    | succ k =>
      simp at hi
      have hmem : old ∈ t := List.mem_iff_getElem?.2 ⟨k, hi⟩
      simp only [ids, List.map_cons, List.nodup_cons] at hn
      have hne : a.id ≠ x := by
        intro hc
        apply hn.1
        rw [hc, ← hid]
        exact List.mem_map_of_mem _ hmem
      simp [findIndex, hne, ih k hn.2 hi]

theorem ids_modify (l : List Entry) (f : Entry → Entry) (idx : Nat)
    (hf : ∀ e, (f e).id = e.id) : ids (l.modify f idx) = ids l := by
  apply List.ext_getElem?
  intro j
  simp only [ids, List.getElem?_map, List.getElem?_modify]
  cases l[j]? with
  | none => rfl
  | some e =>
    by_cases h : idx = j <;> simp [h, hf]

theorem save_invalid (st : State) (entry : Entry) (d a t : String)
    (h : InvalidInput d a (some t)) :
    (startInlineEdit_save entry d a t st).state = st := by
  unfold startInlineEdit_save
  by_cases h1 : trim d = ""
  · simp [h1]
  · by_cases h2 : (stringToNumber a).truthy = false ∨ (stringToNumber a).isNaN = true ∨
        JSNum.le (stringToNumber a) 0 = true
    · simp [h1, h2]
    · rcases h with h | h | h | h
      · exact absurd h h1
      · exact absurd (Or.inr (Or.inl ((JSNum.isNaN_iff _).2 h))) h2
      · exact absurd (Or.inr (Or.inr h)) h2
      · have : t ≠ "income" ∧ t ≠ "expense" := by
          constructor <;> intro hc <;> subst hc <;> simp at h
        simp [h1, h2, this]

theorem save_valid (st : State) (entry : Entry) (d a t : String)
    (h : ValidInput d a (some t)) :
    startInlineEdit_save entry d a t st =
      match findIndex (fun e => decide (e.id = entry.id)) st.entries with
      | some idx =>
        { state :=
            { st with
              entries := st.entries.modify
                (fun old =>
                  { old with
                    description := trim d
                    amount := JSNum.toFixed2 (stringToNumber a)
                    type := t })
                idx
              storage := saveEntries (st.entries.modify
                (fun old =>
                  { old with
                    description := trim d
                    amount := JSNum.toFixed2 (stringToNumber a)
                    type := t })
                idx) }
          alert := none }
      | none => { state := st, alert := none } := by
  obtain ⟨hd, hp, ht⟩ := h
  obtain ⟨hn, hl⟩ := (JSNum.lt_zero_iff _).1 hp
  have htr := JSNum.truthy_of_pos _ hp
  have ht2 : ¬ (t ≠ "income" ∧ t ≠ "expense") := by
    rcases ht with ht | ht <;> simp at ht <;> simp [ht]
  unfold startInlineEdit_save
  simp only [hd, hn, hl, htr, ht2, if_false, false_or, Bool.false_eq_true, Bool.true_eq_false]

theorem onDelete_entries (ok : Bool) (id : String) (st : State) :
    (onDelete ok id st).state.entries =
      if ok = false then st.entries else st.entries.filter fun e => decide (e.id ≠ id) := by
  unfold onDelete
  split <;> rfl

/-! ## Lemmas on storage -/

theorem coerceEntry_entryJSON (now : Nat) (e : Entry) (h : WellFormed e) :
    coerceEntry now (entryJSON e) = some e := by
  obtain ⟨ht, ha, hc, hc0⟩ := h
  obtain ⟨id, type, description, amount, createdAt⟩ := e
  simp only at ht ha hc hc0
  cases amount <;> simp [isFinite] at ha
  cases createdAt <;> simp [isFinite] at hc
  rename_i qa qc
  have hqc : qc ≠ 0 := by
    intro h0; apply hc0; rw [h0]
  have hd : toStr (if truthy (JSVal.str description) = true then JSVal.str description
      else JSVal.str "") = some description := by
    by_cases hde : description = ""
    · subst hde; simp [truthy, toStr]
    · simp [truthy, hde, toStr]
  have hor : ∀ q : ℚ, JSNum.or (JSNum.fin q) (JSNum.fin 0) = JSNum.fin q := by
    intro q
    by_cases hq : q = 0
    · subst hq; simp [JSNum.or, JSNum.truthy]
    · simp [JSNum.or, JSNum.truthy, hq]
  have hty : (match JSVal.str type with
      | JSVal.str "expense" => "expense"
      | _ => "income") = type := by
    rcases ht with ht | ht <;> subst ht <;> rfl
  simp only [coerceEntry, entryJSON, getProp, numberJSON]
  have l1 : List.lookup "id" [("id", JSVal.str id), ("type", JSVal.str type),
      ("description", JSVal.str description), ("amount", JSVal.num (JSNum.fin qa)),
      ("createdAt", JSVal.num (JSNum.fin qc))] = some (JSVal.str id) := by
    simp [List.lookup]
  have l2 : List.lookup "type" [("id", JSVal.str id), ("type", JSVal.str type),
      ("description", JSVal.str description), ("amount", JSVal.num (JSNum.fin qa)),
      ("createdAt", JSVal.num (JSNum.fin qc))] = some (JSVal.str type) := by
    simp [List.lookup]
  have l3 : List.lookup "description" [("id", JSVal.str id), ("type", JSVal.str type),
      ("description", JSVal.str description), ("amount", JSVal.num (JSNum.fin qa)),
      ("createdAt", JSVal.num (JSNum.fin qc))] = some (JSVal.str description) := by
    simp [List.lookup]
  have l4 : List.lookup "amount" [("id", JSVal.str id), ("type", JSVal.str type),
      ("description", JSVal.str description), ("amount", JSVal.num (JSNum.fin qa)),
      ("createdAt", JSVal.num (JSNum.fin qc))] = some (JSVal.num (JSNum.fin qa)) := by
    simp [List.lookup]
  have l5 : List.lookup "createdAt" [("id", JSVal.str id), ("type", JSVal.str type),
      ("description", JSVal.str description), ("amount", JSVal.num (JSNum.fin qa)),
      ("createdAt", JSVal.num (JSNum.fin qc))] = some (JSVal.num (JSNum.fin qc)) := by
    simp [List.lookup]
  rw [l1, l2, l3, l4, l5]
  simp only [Option.getD_some, hd, toStr, toNum, hor, hty]
  simp [JSNum.or, JSNum.truthy, hqc]

theorem coerceAll_entryJSON (now : Nat) (entries : List Entry)
    (h : ∀ e ∈ entries, WellFormed e) :
    coerceAll now (entries.map entryJSON) = some entries := by
  induction entries with
  | nil => rfl
  | cons e es ih =>
    have he := coerceEntry_entryJSON now e (h e (List.mem_cons_self _ _))
    have hes := ih fun x hx => h x (List.mem_cons_of_mem _ hx)
    simp [coerceAll, he, hes]

/-! ## Lemmas on sums and rounding -/

theorem stringToNumber_double (s : String) (q : ℚ) (h : stringToNumber s = JSNum.fin q) :
    JSNum.toDouble q = JSNum.fin q := by
  unfold stringToNumber at h
  by_cases ht : trimChars s.data = []
  · simp only [ht, if_true, JSNum.fin.injEq] at h
    rw [← h]; exact JSNum.toDouble_zero
  · simp only [ht, if_false] at h
    cases hx : (parseNumericLiteral (trimChars s.data)).getD JSNum.nan with
    | nan => rw [hx] at h; simp [JSNum.ofLiteral] at h
    | posInf => rw [hx] at h; simp [JSNum.ofLiteral] at h
    | negInf => rw [hx] at h; simp [JSNum.ofLiteral] at h
    | fin r =>
      rw [hx] at h
      exact JSNum.toDouble_idem r q h

theorem foldl_amount_eq (type : String) (entries : List Entry) :
    (entries.filter fun e => decide (e.type = type)).foldl (fun sum e => sum + e.amount) 0
      = totalOf type entries := by
  unfold totalOf
  induction entries using List.reverseRecOn with
  | nil => rfl
  | append_singleton l e ih =>
    rw [List.filter_append, List.foldl_append, ih, List.reverse_append]
    by_cases h : e.type = type
    · simp [List.filter_cons, h, totalRev]
    · simp [List.filter_cons, h, totalRev]

theorem roundedTo2_of_floor (q : ℚ) (h0 : 0 ≤ q) (hd : JSNum.toDouble q = JSNum.fin q) :
    RoundedTo2 q
      (if (10 : ℚ) ^ 21 ≤ q then JSNum.fin q
        else JSNum.toDouble (((⌊q * 100 + 1 / 2⌋ : ℤ) : ℚ) / 100)) := by
  by_cases hbig : (10 : ℚ) ^ 21 ≤ q
  · obtain ⟨n, hn⟩ := JSNum.toDouble_large_int q q hd (by rw [abs_of_nonneg h0]; exact hbig)
    refine ⟨100 * n, ?_, ?_⟩
    · have : ((100 * n : ℤ) : ℚ) / 100 - q = 0 := by rw [hn]; push_cast; ring
      rw [this]; norm_num
    · have : ((100 * n : ℤ) : ℚ) / 100 = q := by rw [hn]; push_cast; ring
      rw [this, hd]
      simp only [hbig, if_true]
  · refine ⟨⌊q * 100 + 1 / 2⌋, ?_, ?_⟩
    · have h1 := Int.floor_le (q * 100 + 1 / 2)
      have h2 := Int.lt_floor_add_one (q * 100 + 1 / 2)
      rw [abs_le]
      constructor <;> linarith
    · simp only [hbig, if_false]

theorem storedAmountOk_of_floor (q : ℚ) (hq : 1 / 200 ≤ q)
    (hd : JSNum.toDouble q = JSNum.fin q) :
    StoredAmountOk
      (if (10 : ℚ) ^ 21 ≤ q then JSNum.fin q
        else JSNum.toDouble (((⌊q * 100 + 1 / 2⌋ : ℤ) : ℚ) / 100)) := by
  have h0 : 0 < q := by linarith
  by_cases hbig : (10 : ℚ) ^ 21 ≤ q
  · obtain ⟨n, hn⟩ := JSNum.toDouble_large_int q q hd (by rw [abs_of_pos h0]; exact hbig)
    simp only [hbig, if_true]
    refine ⟨by simpa [JSNum.lt, JSNum.zero_def] using h0, 100 * n, q, rfl, ?_⟩
    have : ((100 * n : ℤ) : ℚ) / 100 = q := by rw [hn]; push_cast; ring
    rw [this, hd]
  · simp only [hbig, if_false]
    have h1 : (1 : ℤ) ≤ ⌊q * 100 + 1 / 2⌋ := by
      apply Int.le_floor.2
      push_cast
      linarith
    have h1' : (1 : ℚ) ≤ ((⌊q * 100 + 1 / 2⌋ : ℤ) : ℚ) := by exact_mod_cast h1
    have h2 := Int.floor_le (q * 100 + 1 / 2)
    push_neg at hbig
    have hlo : (1 : ℚ) / 100 ≤ ((⌊q * 100 + 1 / 2⌋ : ℤ) : ℚ) / 100 := by
      apply div_le_div_of_nonneg_right h1' (by norm_num)
    have hhi : ((⌊q * 100 + 1 / 2⌋ : ℤ) : ℚ) / 100 < (10 : ℚ) ^ 22 := by
      rw [div_lt_iff₀ (by norm_num)]
      have : (10 : ℚ) ^ 22 * 100 = 10 ^ 21 * 1000 := by norm_num
      rw [this]
      linarith
    obtain ⟨v, hv0, hv⟩ := JSNum.toDouble_pos_fin _ hlo hhi
    rw [hv]
    exact ⟨by simpa [JSNum.lt, JSNum.zero_def] using hv0, ⌊q * 100 + 1 / 2⌋, v, rfl, hv⟩

theorem toFixed2_stored_ok (q : ℚ) (hq : 1 / 200 ≤ q) (hd : JSNum.toDouble q = JSNum.fin q) :
    StoredAmountOk (JSNum.toFixed2 (JSNum.fin q)) := by
  have hneg : ¬ q < 0 := not_lt.2 (by linarith)
  have hfix : JSNum.toFixed2 (JSNum.fin q) =
      (if (10 : ℚ) ^ 21 ≤ q then JSNum.fin q
        else JSNum.toDouble (((⌊q * 100 + 1 / 2⌋ : ℤ) : ℚ) / 100)) := by
    simp only [JSNum.toFixed2, hneg, if_false]
  rw [hfix]
  exact storedAmountOk_of_floor q hq hd

/-! ## Lemmas on reachable states -/

theorem mem_modify {α : Type} (f : α → α) (idx : Nat) (l : List α) (x : α)
    (h : x ∈ l.modify f idx) : x ∈ l ∨ ∃ o ∈ l, x = f o := by
  obtain ⟨j, hj⟩ := List.mem_iff_getElem?.1 h
  rw [List.getElem?_modify] at hj
  cases hl : l[j]? with
  | none => simp [hl] at hj
  | some o =>
    have ho : o ∈ l := List.mem_iff_getElem?.2 ⟨j, hl⟩
    simp only [hl, Option.map_eq_map, Option.map_some', Option.some.injEq] at hj
    by_cases hij : idx = j
    · right; exact ⟨o, ho, by simp [hij] at hj; exact hj.symm⟩
    · left; simp [hij] at hj; rw [← hj]; exact ho

theorem positive_fin (x : JSNum) (hp : JSNum.lt 0 x = true) (hi : x ≠ JSNum.posInf) :
    ∃ q : ℚ, 0 < q ∧ x = JSNum.fin q := by
  cases x with
  | nan => simp [JSNum.lt, JSNum.zero_def] at hp
  | posInf => exact absurd rfl hi
  | negInf => simp [JSNum.lt, JSNum.zero_def] at hp
  | fin q => exact ⟨q, by simpa [JSNum.lt, JSNum.zero_def] using hp, rfl⟩

theorem storedAmountOk_toFixed2 (text : String)
    (hp : JSNum.lt 0 (stringToNumber text) = true) (hk : amountKept text = true) :
    StoredAmountOk (JSNum.toFixed2 (stringToNumber text)) := by
  unfold amountKept at hk
  rw [hp] at hk
  simp only [Bool.true_and, Bool.and_eq_true, Bool.not_eq_true', decide_eq_true_eq] at hk
  obtain ⟨q, hq0, hx⟩ := positive_fin _ hp hk.2
  have hd := stringToNumber_double text q hx
  rw [hx] at hk ⊢
  have hge : 1 / 200 ≤ q := by
    have := hk.1
    simp only [JSNum.lt, decide_eq_false_iff_not, not_lt] at this
    exact this
  exact toFixed2_stored_ok q hge hd

theorem step_amounts (st : State) (a : Action) (hk : a.amountKept = true)
    (h : ∀ e ∈ st.entries, StoredAmountOk e.amount) :
    ∀ e ∈ (step st a).entries, StoredAmountOk e.amount := by
  cases a with
  | add t d amt uuid randomHex now =>
    simp only [step]
    by_cases hv : ValidInput (fieldText d) (fieldText amt) t
    · rw [onAdd_valid st t d amt uuid randomHex now hv]
      intro e he
      simp only [List.mem_cons] at he
      rcases he with he | he
      · subst he
        exact storedAmountOk_toFixed2 _ hv.2.1 hk
      · exact h e he
    · rw [valid_iff_not_invalid, not_not] at hv
      rw [onAdd_invalid st t d amt uuid randomHex now hv]
      exact h
  | save entry d amt t =>
    simp only [step]
    by_cases hv : ValidInput d amt (some t)
    · rw [save_valid st entry d amt t hv]
      cases findIndex (fun e => decide (e.id = entry.id)) st.entries with
      | none => exact h
      | some idx =>
        intro e he
        rcases mem_modify _ _ _ _ he with he | ⟨o, _, ho⟩
        · exact h e he
        · subst ho
          exact storedAmountOk_toFixed2 _ hv.2.1 hk
    · rw [valid_iff_not_invalid, not_not] at hv
      rw [save_invalid st entry d amt t hv]
      exact h
  | delete ok id =>
    simp only [step, onDelete_entries]
    split
    · exact h
    · intro e he
      exact h e (List.mem_of_mem_filter he)
  | filter next => exact h

theorem run_amounts (actions : List Action) (st : State)
    (hk : ∀ a ∈ actions, a.amountKept = true)
    (h : ∀ e ∈ st.entries, StoredAmountOk e.amount) :
    ∀ e ∈ (run st actions).entries, StoredAmountOk e.amount := by
  induction actions generalizing st with
  | nil => exact h
  | cons a rest ih =>
    have ha := hk a (List.mem_cons_self _ _)
    exact ih (step st a) (fun b hb => hk b (List.mem_cons_of_mem _ hb))
      (step_amounts st a ha h)

theorem step_nodup (st : State) (a : Action) (hf : addsFreshIds st [a] = true)
    (h : (ids st.entries).Nodup) : (ids (step st a).entries).Nodup := by
  cases a with
  | add t d amt uuid randomHex now =>
    have hf : newId uuid randomHex now ∉ ids st.entries := by
      intro hc
      simp [addsFreshIds, hc] at hf
    simp only [step]
    by_cases hv : ValidInput (fieldText d) (fieldText amt) t
    · rw [onAdd_valid st t d amt uuid randomHex now hv]
      simp only [ids, List.map_cons, List.nodup_cons]
      exact ⟨hf, h⟩
    · rw [valid_iff_not_invalid, not_not] at hv
      rw [onAdd_invalid st t d amt uuid randomHex now hv]
      exact h
  | save entry d amt t =>
    simp only [step]
    by_cases hv : ValidInput d amt (some t)
    · rw [save_valid st entry d amt t hv]
      cases findIndex (fun e => decide (e.id = entry.id)) st.entries with
      | none => exact h
      | some idx =>
        simp only
        have := ids_modify st.entries
          (fun old =>
            { old with
              description := trim d
              amount := JSNum.toFixed2 (stringToNumber amt)
              type := t })
          idx (fun _ => rfl)
        rw [this]
        exact h
    · rw [valid_iff_not_invalid, not_not] at hv
      rw [save_invalid st entry d amt t hv]
      exact h
  | delete ok id =>
    simp only [step, onDelete_entries]
    split
    · exact h
    · exact h.sublist (List.Sublist.map _ (List.filter_sublist _))
  | filter next => exact h

theorem run_nodup (actions : List Action) (st : State)
    (hf : addsFreshIds st actions = true) (h : (ids st.entries).Nodup) :
    (ids (run st actions).entries).Nodup := by
  induction actions generalizing st with
  | nil => exact h
  | cons a rest ih =>
    simp only [addsFreshIds, Bool.and_eq_true] at hf
    have h1 : addsFreshIds st [a] = true := by
      simp only [addsFreshIds, Bool.and_true]
      exact hf.1
    exact ih (step st a) hf.2 (step_nodup st a h1 h)

/-! ## The properties of the specification -/

/-- C1, as stated, fails: the amount `1e400` is a number greater than zero, so
the input is valid, and `onAdd` stores the amount `Infinity`, which is no number
rounded to two fractional digits. -/
theorem onAdd_stores_infinite_amount :
    ValidInput "Prize" "1e400" (some "income") ∧
    (onAdd (some "income") (some "Prize") (some "1e400") (some "id-prize") "" 1700000120000
        ledgerTwo).state.entries =
      { id := "id-prize", type := "income", description := "Prize",
        amount := JSNum.posInf, createdAt := JSNum.fin 1700000120000 } :: ledgerTwo.entries ∧
    ¬ HasTwoFractionDigits JSNum.posInf := by
  refine ⟨by decide!, by decide!, ?_⟩
  rintro ⟨n, q, h, _⟩
  cases h

/-- C1, amended. For every state and every valid input whose amount is a finite
number (a description that is not empty once trimmed, an amount that is a
finite number `q` greater than zero, a type that is `income` or `expense`),
`onAdd` makes the collection one entry longer: the new entry stands at
position 0 and carries the given type, the trimmed description and `q` rounded
to two fractional digits, and the previous entries follow in their previous
order. -/
theorem onAdd_prepends_entry (st : State) (type description amount : String)
    (uuid : Option String) (randomHex : String) (now : Nat) (q : ℚ)
    (h : ValidInput description amount (some type))
    (hq : stringToNumber amount = JSNum.fin q) :
    ∃ a : JSNum, RoundedTo2 q a ∧
      (onAdd (some type) (some description) (some amount) uuid randomHex now
          st).state.entries.length = st.entries.length + 1 ∧
      (onAdd (some type) (some description) (some amount) uuid randomHex now
          st).state.entries =
        { id := newId uuid randomHex now
          type := type
          description := trim description
          amount := a
          createdAt := JSNum.fin (now : ℚ) } :: st.entries := by
  have hv : ValidInput (fieldText (some description)) (fieldText (some amount)) (some type) := h
  have h0 : 0 < q := by
    have := h.2.1
    rw [hq] at this
    simpa [JSNum.lt, JSNum.zero_def] using this
  have hfix : JSNum.toFixed2 (JSNum.fin q) =
      (if (10 : ℚ) ^ 21 ≤ q then JSNum.fin q
        else JSNum.toDouble (((⌊q * 100 + 1 / 2⌋ : ℤ) : ℚ) / 100)) := by
    simp only [JSNum.toFixed2, not_lt.2 h0.le, if_false]
  refine ⟨JSNum.toFixed2 (JSNum.fin q), ?_, ?_⟩
  · rw [hfix]
    exact roundedTo2_of_floor q h0.le (stringToNumber_double amount q hq)
  rw [onAdd_valid st (some type) (some description) (some amount) uuid randomHex now hv]
  simp [fieldText, hq]

/-- C1, amended, on the scenario: adding the expense `Rent` of 15000 to the
ledger that holds `Salary` puts `Rent` first. -/
theorem onAdd_prepends_entry_witness :
    (ValidInput " Rent " "15000" (some "expense") ∧
      stringToNumber "15000" = JSNum.fin 15000) ∧
    ∃ a : JSNum, RoundedTo2 15000 a ∧
      (onAdd (some "expense") (some " Rent ") (some "15000") (some "id-rent") ""
          1700000060000 ledgerOne).state.entries.length = ledgerOne.entries.length + 1 ∧
      (onAdd (some "expense") (some " Rent ") (some "15000") (some "id-rent") ""
          1700000060000 ledgerOne).state.entries =
        { id := newId (some "id-rent") "" 1700000060000
          type := "expense"
          description := trim " Rent "
          amount := a
          createdAt := JSNum.fin ((1700000060000 : Nat) : ℚ) } :: ledgerOne.entries :=
  ⟨by decide!,
    onAdd_prepends_entry ledgerOne "expense" " Rent " "15000" (some "id-rent") ""
      1700000060000 15000 (by decide!) (by decide!)⟩

/-- The rounding works on the double, not on the decimal typed: `1.005` is the
double just below it and is stored as `1`, and `16000.456` is stored as the
double of `16000.46`. -/
theorem onAdd_rounds_the_double :
    (onAdd (some "income") (some "Tip") (some "1.005") (some "id-tip") "" 1700000000000
        ledgerOne).state.entries =
      { id := "id-tip", type := "income", description := "Tip",
        amount := JSNum.fin 1, createdAt := JSNum.fin 1700000000000 } :: ledgerOne.entries ∧
    (onAdd (some "income") (some "Tip") (some "16000.456") (some "id-tip") "" 1700000000000
        ledgerOne).state.entries =
      { id := "id-tip", type := "income", description := "Tip",
        amount := stringToNumber "16000.46",
        createdAt := JSNum.fin 1700000000000 } :: ledgerOne.entries := by
  decide!

/-- An amount too small for a double is read as zero and rejected. -/
theorem onAdd_rejects_underflow :
    InvalidInput "Tip" "1e-400" (some "income") ∧
    (onAdd (some "income") (some "Tip") (some "1e-400") (some "id-tip") "" 1700000000000
        ledgerOne).state.entries = ledgerOne.entries := by
  decide!

/-- C2. For every collection and every value of the filter, the totals of
`render` are the sum of `amount` over the income entries of the whole
collection, the sum over its expense entries, and their difference, the sums
being taken in the order of the collection in the arithmetic of JavaScript
numbers; changing the filter changes none of the three. -/
theorem render_totals (st : State) :
    (render st).income = totalOf "income" st.entries ∧
    (render st).expense = totalOf "expense" st.entries ∧
    (render st).net = totalOf "income" st.entries - totalOf "expense" st.entries ∧
    ∀ next : String,
      (render (setFilter next st)).income = (render st).income ∧
      (render (setFilter next st)).expense = (render st).expense ∧
      (render (setFilter next st)).net = (render st).net := by
  have hi : (render st).income = totalOf "income" st.entries := by
    simp only [render, foldl_amount_eq]
  have he : (render st).expense = totalOf "expense" st.entries := by
    simp only [render, foldl_amount_eq]
  refine ⟨hi, he, ?_, ?_⟩
  · simp only [render, foldl_amount_eq]
  · intro next
    simp [render, setFilter]

/-- The totals of the scenario of §8, and the sum of the incomes 0.1, 0.2 and
0.3, which is the double `0.6000000000000001`. -/
theorem render_totals_scenario :
    ((render ledgerTwo).income = JSNum.fin 50000 ∧
      (render ledgerTwo).expense = JSNum.fin 15000 ∧
      (render ledgerTwo).net = JSNum.fin 35000 ∧
      (render ledgerTwo).filtered = [rent, salary]) ∧
    (render
        { entries :=
            [{ id := "a", type := "income", description := "a",
               amount := stringToNumber "0.1", createdAt := JSNum.fin 1 },
             { id := "b", type := "income", description := "b",
               amount := stringToNumber "0.2", createdAt := JSNum.fin 2 },
             { id := "c", type := "income", description := "c",
               amount := stringToNumber "0.3", createdAt := JSNum.fin 3 }]
          filter := "all"
          storage := Payload.absent }).income = stringToNumber "0.6000000000000001" ∧
    stringToNumber "0.6000000000000001" ≠ stringToNumber "0.6" := by
  decide!

/-- C3, as stated, fails: the collection loaded from the payload `[{}]` holds
one entry, and its amount is zero. -/
theorem loaded_amount_not_positive :
    (run (initialState 1700000000000 (Payload.json (JSVal.arr [JSVal.obj []]))) []).entries =
      [{ id := "undefined", type := "income", description := "",
         amount := JSNum.fin 0, createdAt := JSNum.fin 1700000000000 }] ∧
    ¬ StoredAmountOk (JSNum.fin 0) :=
  ⟨by decide!, fun h => absurd h.1 (by decide!)⟩

/-- C3, amended. When every entry of the loaded collection has an amount that
is greater than zero and rounded to two fractional digits, and no add or
edit-save action of the sequence carries an amount that is strictly between
zero and 0.005 or is infinite, every entry of the collection reached has an
amount that is greater than zero and rounded to two fractional digits. -/
theorem amounts_stay_positive_and_rounded (now : Nat) (raw : Payload) (actions : List Action)
    (h0 : ∀ e ∈ loadEntries now raw, StoredAmountOk e.amount)
    (hk : ∀ a ∈ actions, a.amountKept = true) :
    ∀ e ∈ (run (initialState now raw) actions).entries, StoredAmountOk e.amount :=
  run_amounts actions (initialState now raw) hk h0

/-- C3, amended, on the scenario: `Salary` is loaded, `Rent` is added and then
edited to 16000.456, and `Salary` is deleted. -/
theorem amounts_stay_positive_and_rounded_witness :
    (∀ e ∈ loadEntries 1700000000000 (saveEntries [salary]), StoredAmountOk e.amount) ∧
    (∀ a ∈ [Action.add (some "expense") (some "Rent") (some "15000") (some "id-rent") ""
              1700000060000,
            Action.save rent "Rent" "16000.456" "expense",
            Action.delete true "id-salary"], a.amountKept = true) ∧
    ∀ e ∈ (run (initialState 1700000000000 (saveEntries [salary]))
        [Action.add (some "expense") (some "Rent") (some "15000") (some "id-rent") ""
           1700000060000,
         Action.save rent "Rent" "16000.456" "expense",
         Action.delete true "id-salary"]).entries, StoredAmountOk e.amount :=
  have hload : ∀ e ∈ loadEntries 1700000000000 (saveEntries [salary]),
      StoredAmountOk e.amount := by
    have hl : loadEntries 1700000000000 (saveEntries [salary]) = [salary] := by decide!
    rw [hl]
    intro e he
    simp only [List.mem_singleton] at he
    subst he
    exact ⟨by decide!, 5000000, 50000, rfl, by decide!⟩
  ⟨hload, by decide!,
    amounts_stay_positive_and_rounded 1700000000000 (saveEntries [salary]) _
      hload (by decide!)⟩

/-- An amount below half a hundredth passes the check `amount <= 0` of `onAdd`
and is stored as zero. -/
theorem onAdd_small_amount_stored_zero :
    (onAdd (some "income") (some "Tip") (some "0.004") (some "id-tip") "" 1700000000000
        ledgerOne).state.entries =
      { id := "id-tip", type := "income", description := "Tip",
        amount := JSNum.fin 0, createdAt := JSNum.fin 1700000000000 } :: ledgerOne.entries := by
  decide!

/-- C4. On the create path and on the edit-save path, for every state, an input
whose description is empty once trimmed, whose amount is not a number, is zero
or is negative, or whose type is neither `income` nor `expense`, is rejected:
the state, and the collection in it, stay as they were. -/
theorem invalid_input_leaves_state (st : State) (entry : Entry)
    (description amount : String) (type : Option String) (typeValue : String)
    (uuid : Option String) (randomHex : String) (now : Nat) :
    (InvalidInput description amount type →
      (onAdd type (some description) (some amount) uuid randomHex now st).state = st) ∧
    (InvalidInput description amount (some typeValue) →
      (startInlineEdit_save entry description amount typeValue st).state = st) :=
  ⟨fun h => onAdd_invalid st type (some description) (some amount) uuid randomHex now h,
    fun h => save_invalid st entry description amount typeValue h⟩

/-- C4, on the scenario: the amounts `0`, `-5` and `abc` and the description of
three blanks are rejected on both paths, and the ledger stays as it was. -/
theorem invalid_input_leaves_state_witness :
    (InvalidInput "Rent" "0" (some "expense") ∧ InvalidInput "Rent" "-5" (some "expense") ∧
      InvalidInput "Rent" "abc" (some "expense") ∧
      InvalidInput "   " "15000" (some "expense")) ∧
    ((onAdd (some "expense") (some "Rent") (some "0") (some "id-new") "" 1700000120000
        ledgerTwo).state = ledgerTwo ∧
      (startInlineEdit_save rent "Rent" "0" "expense" ledgerTwo).state = ledgerTwo) ∧
    ((onAdd (some "expense") (some "Rent") (some "-5") (some "id-new") "" 1700000120000
        ledgerTwo).state = ledgerTwo ∧
      (startInlineEdit_save rent "Rent" "-5" "expense" ledgerTwo).state = ledgerTwo) ∧
    ((onAdd (some "expense") (some "Rent") (some "abc") (some "id-new") "" 1700000120000
        ledgerTwo).state = ledgerTwo ∧
      (startInlineEdit_save rent "Rent" "abc" "expense" ledgerTwo).state = ledgerTwo) ∧
    ((onAdd (some "expense") (some "   ") (some "15000") (some "id-new") "" 1700000120000
        ledgerTwo).state = ledgerTwo ∧
      (startInlineEdit_save rent "   " "15000" "expense" ledgerTwo).state = ledgerTwo) :=
  ⟨by decide!,
    ⟨(invalid_input_leaves_state ledgerTwo rent "Rent" "0" (some "expense") "expense"
        (some "id-new") "" 1700000120000).1 (by decide!),
      (invalid_input_leaves_state ledgerTwo rent "Rent" "0" (some "expense") "expense"
        (some "id-new") "" 1700000120000).2 (by decide!)⟩,
    ⟨(invalid_input_leaves_state ledgerTwo rent "Rent" "-5" (some "expense") "expense"
        (some "id-new") "" 1700000120000).1 (by decide!),
      (invalid_input_leaves_state ledgerTwo rent "Rent" "-5" (some "expense") "expense"
        (some "id-new") "" 1700000120000).2 (by decide!)⟩,
    ⟨(invalid_input_leaves_state ledgerTwo rent "Rent" "abc" (some "expense") "expense"
        (some "id-new") "" 1700000120000).1 (by decide!),
      (invalid_input_leaves_state ledgerTwo rent "Rent" "abc" (some "expense") "expense"
        (some "id-new") "" 1700000120000).2 (by decide!)⟩,
    ⟨(invalid_input_leaves_state ledgerTwo rent "   " "15000" (some "expense") "expense"
        (some "id-new") "" 1700000120000).1 (by decide!),
      (invalid_input_leaves_state ledgerTwo rent "   " "15000" (some "expense") "expense"
        (some "id-new") "" 1700000120000).2 (by decide!)⟩⟩

/-- C5, as stated, fails: the amount `1e400` passes the validation of the Save
handler, and the entry gets the amount `Infinity`, which is no number rounded
to two fractional digits. -/
theorem save_stores_infinite_amount :
    ValidInput "Rent" "1e400" (some "expense") ∧
    (startInlineEdit_save rent "Rent" "1e400" "expense" ledgerTwo).state.entries =
      [{ id := "id-rent", type := "expense", description := "Rent",
         amount := JSNum.posInf, createdAt := JSNum.fin 1700000060000 }, salary] ∧
    ¬ HasTwoFractionDigits JSNum.posInf := by
  refine ⟨by decide!, by decide!, ?_⟩
  rintro ⟨n, q, h, _⟩
  cases h

/-- The Save handler rounds the double as well: `2.675` is the double just
below it, and the entry gets the amount `2.67`. -/
theorem save_rounds_the_double :
    (startInlineEdit_save rent "Rent" "2.675" "expense" ledgerTwo).state.entries =
      [{ id := "id-rent", type := "expense", description := "Rent",
         amount := stringToNumber "2.67", createdAt := JSNum.fin 1700000060000 }, salary] := by
  decide!

/-- C5, amended. For every collection with unique ids and every id that occurs
in it, at position `i` say, a validated edit-save for that id whose amount is a
finite number `q` gives a collection of the same length in which the entry at
position `i` has the new trimmed description, `q` rounded to two fractional
digits and the new type and keeps its id and its creation time, and the entry
at every other position is unchanged. -/
theorem save_replaces_in_place (st : State) (entry : Entry)
    (description amount type : String) (i : Nat) (old : Entry) (q : ℚ)
    (hv : ValidInput description amount (some type))
    (hq : stringToNumber amount = JSNum.fin q)
    (hn : (ids st.entries).Nodup)
    (hi : st.entries[i]? = some old) (hid : old.id = entry.id) :
    ∃ a : JSNum, RoundedTo2 q a ∧
      (startInlineEdit_save entry description amount type st).state.entries.length =
        st.entries.length ∧
      (startInlineEdit_save entry description amount type st).state.entries[i]? =
        some
          { id := old.id
            type := type
            description := trim description
            amount := a
            createdAt := old.createdAt } ∧
      ∀ j : Nat, j ≠ i →
        (startInlineEdit_save entry description amount type st).state.entries[j]? =
          st.entries[j]? := by
  have h0 : 0 < q := by
    have := hv.2.1
    rw [hq] at this
    simpa [JSNum.lt, JSNum.zero_def] using this
  have hfix : JSNum.toFixed2 (JSNum.fin q) =
      (if (10 : ℚ) ^ 21 ≤ q then JSNum.fin q
        else JSNum.toDouble (((⌊q * 100 + 1 / 2⌋ : ℤ) : ℚ) / 100)) := by
    simp only [JSNum.toFixed2, not_lt.2 h0.le, if_false]
  refine ⟨JSNum.toFixed2 (JSNum.fin q), ?_, ?_⟩
  · rw [hfix]
    exact roundedTo2_of_floor q h0.le (stringToNumber_double amount q hq)
  rw [save_valid st entry description amount type hv,
    findIndex_of_nodup entry.id st.entries i old hn hi hid]
  refine ⟨by simp, ?_, ?_⟩
  · simp [List.getElem?_modify, hi, hq]
  · intro j hj
    simp only [List.getElem?_modify]
    cases st.entries[j]? with
    | none => rfl
    | some e => simp [Ne.symm hj]

/-- C5, amended, on the scenario: editing the amount of `Rent` from 15000 to
16000 keeps `Rent` at position 0 and `Salary` after it. -/
theorem save_replaces_in_place_witness :
    (ValidInput "Rent" "16000" (some "expense") ∧
      stringToNumber "16000" = JSNum.fin 16000 ∧ (ids ledgerTwo.entries).Nodup ∧
      ledgerTwo.entries[0]? = some rent ∧ rent.id = rent.id) ∧
    ∃ a : JSNum, RoundedTo2 16000 a ∧
      (startInlineEdit_save rent "Rent" "16000" "expense" ledgerTwo).state.entries.length =
        ledgerTwo.entries.length ∧
      (startInlineEdit_save rent "Rent" "16000" "expense" ledgerTwo).state.entries[0]? =
        some
          { id := rent.id
            type := "expense"
            description := trim "Rent"
            amount := a
            createdAt := rent.createdAt } ∧
      ∀ j : Nat, j ≠ 0 →
        (startInlineEdit_save rent "Rent" "16000" "expense" ledgerTwo).state.entries[j]? =
          ledgerTwo.entries[j]? :=
  ⟨by decide!,
    save_replaces_in_place ledgerTwo rent "Rent" "16000" "expense" 0 rent 16000 (by decide!)
      (by decide!) (by decide!) (by decide!) rfl⟩

/-- C6, as stated, fails: an entry whose creation time is `0` comes back from
the store with the time of the load, and an entry whose amount is `Infinity`
comes back with the amount `0`. -/
theorem roundtrip_loses_zero_time :
    (loadEntries 1700000000000
        (saveEntries
          [{ id := "a", type := "income", description := "Salary",
             amount := JSNum.fin 50000, createdAt := JSNum.fin 0 }]) =
      [{ id := "a", type := "income", description := "Salary",
         amount := JSNum.fin 50000, createdAt := JSNum.fin 1700000000000 }] ∧
      loadEntries 1700000000000
        (saveEntries
          [{ id := "a", type := "income", description := "Salary",
             amount := JSNum.fin 50000, createdAt := JSNum.fin 0 }]) ≠
      [{ id := "a", type := "income", description := "Salary",
         amount := JSNum.fin 50000, createdAt := JSNum.fin 0 }]) ∧
    loadEntries 1700000000000
        (saveEntries
          [{ id := "b", type := "income", description := "Prize",
             amount := JSNum.posInf, createdAt := JSNum.fin 1600000000000 }]) =
      [{ id := "b", type := "income", description := "Prize",
         amount := JSNum.fin 0, createdAt := JSNum.fin 1600000000000 }] := by
  decide!

/-- C6, amended. For every collection in which every entry has a type of
`income` or `expense`, a finite amount and a finite creation time other than
zero, loading what `saveEntries` wrote returns the same collection: same
length, same order, and every field of every entry as it was. -/
theorem load_save_roundtrip (now : Nat) (entries : List Entry)
    (h : ∀ e ∈ entries, WellFormed e) :
    loadEntries now (saveEntries entries) = entries := by
  simp [loadEntries, saveEntries, coerceAll_entryJSON now entries h]

/-- C6, amended, on the ledger of the scenario. -/
theorem load_save_roundtrip_witness :
    (∀ e ∈ [rent, salary], WellFormed e) ∧
    loadEntries 1700000120000 (saveEntries [rent, salary]) = [rent, salary] :=
  ⟨by decide!, load_save_roundtrip 1700000120000 [rent, salary] (by decide!)⟩

/-- C7. `loadEntries` is total, and for every payload that is absent, is the
empty text, is not valid JSON, or parses to something other than an array, it
returns the empty collection. -/
theorem loadEntries_unusable_payload (now : Nat) (raw : Payload)
    (h : raw = Payload.absent ∨ raw = Payload.empty ∨ raw = Payload.malformed ∨
      ∃ v, raw = Payload.json v ∧ isArray v = false) :
    loadEntries now raw = [] := by
  rcases h with h | h | h | ⟨v, h, hv⟩ <;> subst h
  · rfl
  · rfl
  · rfl
  · cases v <;> simp [isArray] at hv <;> rfl

/-- C7, on a payload that parses to an object. -/
theorem loadEntries_unusable_payload_witness :
    (Payload.json (JSVal.obj [("id", JSVal.str "a")]) = Payload.absent ∨
      Payload.json (JSVal.obj [("id", JSVal.str "a")]) = Payload.empty ∨
      Payload.json (JSVal.obj [("id", JSVal.str "a")]) = Payload.malformed ∨
      ∃ v, Payload.json (JSVal.obj [("id", JSVal.str "a")]) = Payload.json v ∧
        isArray v = false) ∧
    loadEntries 1700000000000 (Payload.json (JSVal.obj [("id", JSVal.str "a")])) = [] :=
  ⟨Or.inr (Or.inr (Or.inr ⟨_, rfl, rfl⟩)),
    loadEntries_unusable_payload 1700000000000 _ (Or.inr (Or.inr (Or.inr ⟨_, rfl, rfl⟩)))⟩

/-- C8, as stated, fails: the collection loaded from a payload of two records
with the id `a` holds two entries with that id. -/
theorem loaded_ids_repeat :
    ids (run (initialState 1700000000000
        (Payload.json (JSVal.arr
          [JSVal.obj [("id", JSVal.str "a")], JSVal.obj [("id", JSVal.str "a")]]))) []).entries =
      ["a", "a"] ∧
    ¬ (["a", "a"] : List String).Nodup := by
  decide!

/-- C8, amended. When no two entries of the loaded collection have the same id
and every id that an add action generates is different from the ids held at
that moment, no two entries of the collection reached have the same id. -/
theorem ids_stay_unique (now : Nat) (raw : Payload) (actions : List Action)
    (h0 : (ids (loadEntries now raw)).Nodup)
    (hf : addsFreshIds (initialState now raw) actions = true) :
    (ids (run (initialState now raw) actions).entries).Nodup :=
  run_nodup actions (initialState now raw) hf h0

/-- C8, amended, on the scenario: `Salary` is loaded, `Rent` is added and
edited, and `Salary` is deleted. -/
theorem ids_stay_unique_witness :
    ((ids (loadEntries 1700000000000 (saveEntries [salary]))).Nodup ∧
      addsFreshIds (initialState 1700000000000 (saveEntries [salary]))
        [Action.add (some "expense") (some "Rent") (some "15000") (some "id-rent") ""
           1700000060000,
         Action.save rent "Rent" "16000" "expense",
         Action.delete true "id-salary"] = true) ∧
    (ids (run (initialState 1700000000000 (saveEntries [salary]))
        [Action.add (some "expense") (some "Rent") (some "15000") (some "id-rent") ""
           1700000060000,
         Action.save rent "Rent" "16000" "expense",
         Action.delete true "id-salary"]).entries).Nodup :=
  ⟨by decide!,
    ids_stay_unique 1700000000000 (saveEntries [salary]) _ (by decide!) (by decide!)⟩

/-- C9. For every collection and every id that no entry of it has, a validated
edit-save for that id raises no message and leaves the state, and the
collection in it, as they were. -/
theorem save_unknown_id (st : State) (entry : Entry) (description amount type : String)
    (hv : ValidInput description amount (some type))
    (h : ∀ e ∈ st.entries, e.id ≠ entry.id) :
    startInlineEdit_save entry description amount type st = { state := st, alert := none } := by
  rw [save_valid st entry description amount type hv,
    findIndex_eq_none _ st.entries (fun e he => by simpa using h e he)]

/-- C9, on the scenario: the row of `Rent` is saved when the ledger holds
`Salary` only. -/
theorem save_unknown_id_witness :
    (ValidInput "Rent" "16000" (some "expense") ∧ ∀ e ∈ ledgerOne.entries, e.id ≠ rent.id) ∧
    startInlineEdit_save rent "Rent" "16000" "expense" ledgerOne =
      { state := ledgerOne, alert := none } :=
  ⟨by decide!,
    save_unknown_id ledgerOne rent "Rent" "16000" "expense" (by decide!) (by decide!)⟩

/-- C10. For every collection and every id that no entry of it has, a confirmed
delete of that id leaves the collection as it was: same entries, same order. -/
theorem onDelete_unknown_id (st : State) (id : String)
    (h : ∀ e ∈ st.entries, e.id ≠ id) :
    (onDelete true id st).state.entries = st.entries := by
  rw [onDelete_entries]
  simp only [Bool.true_eq_false, if_false]
  exact List.filter_eq_self.2 fun e he => by simpa using h e he

/-- C10, on the scenario: an id that the ledger does not hold is deleted. -/
theorem onDelete_unknown_id_witness :
    (∀ e ∈ ledgerTwo.entries, e.id ≠ "id-gone") ∧
    (onDelete true "id-gone" ledgerTwo).state.entries = ledgerTwo.entries :=
  ⟨by decide!, onDelete_unknown_id ledgerTwo "id-gone" (by decide!)⟩

end IncomeExpense
